import Mathlib

/-!
Verification development for the wtree lock manager and rollback manager
(`internal/worktree/lock.go` and the rollback manager in `internal/worktree`).

Shallow embedding conventions:
* Go slices and maps become Lean lists (a `map[int]bool` set becomes a
  `List Nat` queried with membership; `map[int][]int` becomes an edge list).
* A rollback operation's `Action func() error` closure is modelled by the
  (deterministic) outcome of its single invocation: `actionOk : Bool`.
  The order in which actions are invoked is observed in an explicit `trace`.
* Go errors become inductive error values carrying the data the code puts
  into the message (operation ids, lock-holder info).
* Filesystem state is a path→contents association list; each filesystem
  primitive the lock code performs is recorded in an event list.
-/

namespace WTree

/-- `RollbackType` from the source (four operation kinds). -/
inductive RollbackType where
  | removeWorktree
  | deleteBranch
  | removeFiles
  | cleanupLinks
deriving DecidableEq, Repr

/-- `RollbackOperation`: the action closure is modelled by `actionOk`,
the outcome of invoking it (descriptions are dropped; the id identifies
the operation in errors instead of the description string). -/
structure RollbackOperation where
  type : RollbackType
  actionOk : Bool
  critical : Bool
  id : Nat
  dependsOn : List Nat
deriving DecidableEq, Repr

/-- One entry of the aggregate error list built during `Execute`:
either an operation's action returned an error, or the operation was
marked failed with the "dependency constraints" error. -/
inductive ExecErr where
  | actionFailed (id : Nat)
  | depConstraint (id : Nat)
deriving DecidableEq, Repr

/-- The error returned by `Execute`: the distinguished
"critical rollback operation failed" error (mode B), or the
"rollback completed with N errors" aggregate. -/
inductive RollbackError where
  | criticalFailure (id : Nat)
  | aggregate (errs : List ExecErr)
deriving DecidableEq, Repr

/-- `RollbackManager` (the `repo` handle and mutex are dropped; actions
carry their own outcome). `dependencies` is the reverse dependency map
`map[int][]int`, modelled as an edge list `(dependsOnID, dependentID)`. -/
structure RollbackManager where
  operations : List RollbackOperation
  dependencies : List (Nat × Nat)
  failFast : Bool
  failFastExplicitlySet : Bool
  lastError : Option ExecErr
deriving DecidableEq, Repr

/-- `NewRollbackManager`. -/
def NewRollbackManager : RollbackManager :=
  { operations := [], dependencies := [], failFast := true,
    failFastExplicitlySet := false, lastError := none }

/-- Common body of the four `AddXCleanup` methods: append an operation
whose id is the current length of the ledger. -/
def appendOperation (rm : RollbackManager) (ty : RollbackType)
    (critical actionOk : Bool) : RollbackManager × Nat :=
  let id := rm.operations.length
  ({ rm with operations := rm.operations ++
      [{ type := ty, actionOk := actionOk, critical := critical,
         id := id, dependsOn := [] }] }, id)

/-- `AddWorktreeCleanup` (critical). -/
def AddWorktreeCleanup (rm : RollbackManager) (actionOk : Bool) :
    RollbackManager × Nat :=
  appendOperation rm .removeWorktree true actionOk

/-- `AddBranchCleanup` (non-critical). -/
def AddBranchCleanup (rm : RollbackManager) (actionOk : Bool) :
    RollbackManager × Nat :=
  appendOperation rm .deleteBranch false actionOk

/-- `AddFileCleanup` (critical). -/
def AddFileCleanup (rm : RollbackManager) (actionOk : Bool) :
    RollbackManager × Nat :=
  appendOperation rm .removeFiles true actionOk

/-- `AddLinkCleanup` (non-critical). -/
def AddLinkCleanup (rm : RollbackManager) (actionOk : Bool) :
    RollbackManager × Nat :=
  appendOperation rm .cleanupLinks false actionOk

/-- `AddDependency`: records the edge only when `dependentID` is in
bounds; `dependsOnID` is not checked.  Returns nothing in Go (no error
is reported); here the updated manager. -/
def AddDependency (rm : RollbackManager) (dependentID dependsOnID : Nat) :
    RollbackManager :=
  if h : dependentID < rm.operations.length then
    let op := rm.operations.get ⟨dependentID, h⟩
    { rm with
      operations := rm.operations.set dependentID
        { op with dependsOn := op.dependsOn ++ [dependsOnID] },
      dependencies := rm.dependencies ++ [(dependsOnID, dependentID)] }
  else rm

/-- `SetFailFast`. -/
def SetFailFast (rm : RollbackManager) (failFast : Bool) : RollbackManager :=
  { rm with failFast := failFast, failFastExplicitlySet := true }

/-- `clearOperations`: resets the ledger and the dependency map,
deliberately keeping `lastError`. -/
def clearOperations (rm : RollbackManager) : RollbackManager :=
  { rm with operations := [], dependencies := [] }

/-- `Clear`. -/
def Clear (rm : RollbackManager) : RollbackManager :=
  clearOperations rm

/-- `GetLastError`. -/
def GetLastError (rm : RollbackManager) : Option ExecErr :=
  rm.lastError

/-- `HasOperations`. -/
def HasOperations (rm : RollbackManager) : Bool :=
  !rm.operations.isEmpty

/-- `shouldSkipOperation`: skip when one of the declared dependencies is
in the `failed` set. -/
def shouldSkipOperation (op : RollbackOperation) (failed : List Nat) : Bool :=
  op.dependsOn.any (fun depID => failed.contains depID)

/-- The mutable local state of `Execute` (`executed` and `failed` sets,
the accumulated `errors` slice) together with the manager's `lastError`
field (mutated during the run) and the observed invocation `trace`. -/
structure ExecSt where
  executed : List Nat
  failed : List Nat
  errors : List ExecErr
  trace : List Nat
  lastError : Option ExecErr
deriving DecidableEq, Repr

/-- Initial `Execute` state. -/
def initSt (rm : RollbackManager) : ExecSt :=
  { executed := [], failed := [], errors := [], trace := [],
    lastError := rm.lastError }

/-- State change when an invoked action succeeds. -/
def execSuccess (op : RollbackOperation) (st : ExecSt) : ExecSt :=
  { st with executed := op.id :: st.executed, trace := st.trace ++ [op.id] }

/-- State change when an invoked action fails and execution continues:
the error is appended, the operation is marked failed, `lastError` is set. -/
def execFailure (op : RollbackOperation) (st : ExecSt) : ExecSt :=
  { st with failed := op.id :: st.failed,
            errors := st.errors ++ [ExecErr.actionFailed op.id],
            trace := st.trace ++ [op.id],
            lastError := some (ExecErr.actionFailed op.id) }

/-- State at the mode-B abort: the failing action was invoked and
`lastError` was set, but no entry was appended to `errors`/`failed`. -/
def abortState (op : RollbackOperation) (st : ExecSt) : ExecSt :=
  { st with trace := st.trace ++ [op.id],
            lastError := some (ExecErr.actionFailed op.id) }

/-- Result of phase 1 of the fail-fast branch: either the immediate
abort taken when `failFastExplicitlySet` holds, or the final state. -/
inductive P1Res where
  | abort (k : Nat) (st : ExecSt)
  | ok (st : ExecSt)
deriving DecidableEq, Repr

/-- Phase 1 of the fail-fast branch of `Execute`: the critical
operations, iterated here over the already-reversed ledger. -/
def phase1 (explicitSet : Bool) : List RollbackOperation → ExecSt → P1Res
  | [], st => .ok st
  | op :: rest, st =>
    if op.critical = false then phase1 explicitSet rest st
    else if shouldSkipOperation op st.failed then phase1 explicitSet rest st
    else if op.actionOk then phase1 explicitSet rest (execSuccess op st)
    else if explicitSet then .abort op.id (abortState op st)
    else phase1 explicitSet rest (execFailure op st)

/-- Phase 2 of the fail-fast branch of `Execute`: the non-critical
operations not already executed, over the already-reversed ledger. -/
def phase2 : List RollbackOperation → ExecSt → ExecSt
  | [], st => st
  | op :: rest, st =>
    if op.critical then phase2 rest st
    else if st.executed.contains op.id then phase2 rest st
    else if shouldSkipOperation op st.failed then phase2 rest st
    else if op.actionOk then phase2 rest (execSuccess op st)
    else phase2 rest (execFailure op st)

/-- `canExecute` check of the dependency-aware branch: all dependencies
already executed or failed. -/
def canExecute (op : RollbackOperation) (st : ExecSt) : Bool :=
  op.dependsOn.all (fun depID =>
    st.executed.contains depID || st.failed.contains depID)

/-- One pass of the dependency-aware loop: returns the new `remaining`
list, the new state, and whether progress was made. -/
def modeCPass : List RollbackOperation → ExecSt →
    List RollbackOperation × ExecSt × Bool
  | [], st => ([], st, false)
  | op :: rest, st =>
    if shouldSkipOperation op st.failed then
      modeCPass rest st
    else if canExecute op st then
      let st1 := if op.actionOk then execSuccess op st else execFailure op st
      let r := modeCPass rest st1
      (r.1, r.2.1, true)
    else
      let r := modeCPass rest st
      (op :: r.1, r.2.1, r.2.2)

/-- The "no progress" exit of the dependency-aware loop: every remaining
operation is marked failed with the "dependency constraints" error. -/
def markDepConstraint : List RollbackOperation → ExecSt → ExecSt
  | [], st => st
  | op :: rest, st =>
    markDepConstraint rest
      { st with failed := op.id :: st.failed,
                errors := st.errors ++ [ExecErr.depConstraint op.id],
                lastError := some (ExecErr.depConstraint op.id) }

/-- The dependency-aware loop (`for len(remaining) > 0`).  The Go loop
terminates because each iteration either makes progress (shrinking
`remaining`), empties `remaining`, or takes the no-progress exit; the
`fuel` argument makes that bound explicit and `Execute` supplies enough. -/
def modeCLoop : Nat → List RollbackOperation → ExecSt → ExecSt
  | 0, _, st => st
  | fuel + 1, remaining, st =>
    if remaining.isEmpty then st
    else
      let r := modeCPass remaining st
      if r.2.2 = false ∧ r.1 ≠ [] then markDepConstraint r.1 r.2.1
      else modeCLoop fuel r.1 r.2.1

/-- Everything `Execute` produces: its return value, the manager
afterwards, and the run's final internal state (whose `trace` is the
order in which the actions were invoked). -/
structure ExecOutcome where
  result : Option RollbackError
  final : RollbackManager
  st : ExecSt
deriving DecidableEq, Repr

/-- Shared tail of `Execute`: clear the ledger (keeping the updated
`lastError`) and build the aggregate error if any were recorded. -/
def finishExec (rm : RollbackManager) (st : ExecSt) : ExecOutcome :=
  { result := if st.errors.isEmpty then none
              else some (RollbackError.aggregate st.errors),
    final := { rm with operations := [], dependencies := [],
                       lastError := st.lastError },
    st := st }

/-- `Execute`. -/
def Execute (rm : RollbackManager) : ExecOutcome :=
  if rm.operations.isEmpty then
    { result := none, final := rm, st := initSt rm }
  else if rm.failFast then
    match phase1 rm.failFastExplicitlySet rm.operations.reverse (initSt rm) with
    | .abort k st =>
      { result := some (RollbackError.criticalFailure k),
        final := { rm with operations := [], dependencies := [],
                           lastError := st.lastError },
        st := st }
    | .ok st1 =>
      let st2 := if !rm.failFastExplicitlySet || st1.errors.isEmpty then
                   phase2 rm.operations.reverse st1
                 else st1
      finishExec rm st2
  else
    finishExec rm (modeCLoop (rm.operations.length + 2) rm.operations (initSt rm))

/-!  Lock manager (`internal/worktree/lock.go`).

`generateLockKey` hashes the target path with SHA-256 (Go `crypto/sha256`,
FIPS 180-4); the hash is computed here over `Nat` words reduced mod `2^32`.
Strings are hashed as their byte sequences; the embedding maps characters
to their code points, which coincides with the bytes for the ASCII inputs
used throughout. -/

/-- 32-bit modular addition. -/
def add32 (a b : Nat) : Nat := (a + b) % 4294967296

/-- 32-bit right rotation (argument assumed `< 2^32`). -/
def rotr32 (n x : Nat) : Nat := x / 2 ^ n + x % 2 ^ n * 2 ^ (32 - n)

/-- Logical right shift. -/
def shr32 (n x : Nat) : Nat := x / 2 ^ n

/-- Three-way xor. -/
def xor3 (a b c : Nat) : Nat := Nat.xor (Nat.xor a b) c

/-- 32-bit complement (argument assumed `< 2^32`). -/
def not32 (x : Nat) : Nat := 4294967295 - x

/-- SHA-256 lowercase sigma 0. -/
def smallSigma0 (x : Nat) : Nat := xor3 (rotr32 7 x) (rotr32 18 x) (shr32 3 x)

/-- SHA-256 lowercase sigma 1. -/
def smallSigma1 (x : Nat) : Nat := xor3 (rotr32 17 x) (rotr32 19 x) (shr32 10 x)

/-- SHA-256 uppercase Sigma 0. -/
def bigSigma0 (x : Nat) : Nat := xor3 (rotr32 2 x) (rotr32 13 x) (rotr32 22 x)

/-- SHA-256 uppercase Sigma 1. -/
def bigSigma1 (x : Nat) : Nat := xor3 (rotr32 6 x) (rotr32 11 x) (rotr32 25 x)

/-- SHA-256 choice function. -/
def chFn (x y z : Nat) : Nat := Nat.xor (Nat.land x y) (Nat.land (not32 x) z)

/-- SHA-256 majority function. -/
def majFn (x y z : Nat) : Nat :=
  Nat.xor (Nat.xor (Nat.land x y) (Nat.land x z)) (Nat.land y z)

/-- SHA-256 round constants (decimal). -/
def shaK : List Nat :=
  [1116352408, 1899447441, 3049323471, 3921009573, 961987163,
   1508970993, 2453635748, 2870763221, 3624381080, 310598401,
   607225278, 1426881987, 1925078388, 2162078206, 2614888103,
   3248222580, 3835390401, 4022224774, 264347078, 604807628,
   770255983, 1249150122, 1555081692, 1996064986, 2554220882,
   2821834349, 2952996808, 3210313671, 3336571891, 3584528711,
   113926993, 338241895, 666307205, 773529912, 1294757372,
   1396182291, 1695183700, 1986661051, 2177026350, 2456956037,
   2730485921, 2820302411, 3259730800, 3345764771, 3516065817,
   3600352804, 4094571909, 275423344, 430227734, 506948616,
   659060556, 883997877, 958139571, 1322822218, 1537002063,
   1747873779, 1955562222, 2024104815, 2227730452, 2361852424,
   2428436474, 2756734187, 3204031479, 3329325298]

/-- SHA-256 initial hash value (decimal). -/
def shaH0 : List Nat :=
  [1779033703, 3144134277, 1013904242, 2773480762, 1359893119,
   2600822924, 528734635, 1541459225]

/-- `k` big-endian bytes of `v`. -/
def beBytes : Nat → Nat → List Nat
  | 0, _ => []
  | k + 1, v => beBytes k (v / 256) ++ [v % 256]

/-- SHA-256 padding: `0x80`, zeros to 56 mod 64, 8-byte bit length. -/
def padMessage (msg : List Nat) : List Nat :=
  let L := msg.length
  msg ++ [0x80] ++ List.replicate ((119 - L % 64) % 64) 0 ++ beBytes 8 (8 * L)

/-- Big-endian 32-bit words of a byte list. -/
def wordsOfBytes : List Nat → List Nat
  | a :: b :: c :: d :: rest =>
    (((a * 256 + b) * 256 + c) * 256 + d) :: wordsOfBytes rest
  | _ => []

/-- Message-schedule extension; `acc` holds the schedule so far in
reverse (most recent word first). -/
def extendSchedule : Nat → List Nat → List Nat
  | 0, acc => acc
  | k + 1, acc =>
    let w := add32 (add32 (smallSigma1 (acc.getD 1 0)) (acc.getD 6 0))
                   (add32 (smallSigma0 (acc.getD 14 0)) (acc.getD 15 0))
    extendSchedule k (w :: acc)

/-- The eight working variables of the compression loop. -/
structure Sha256Hs where
  a : Nat
  b : Nat
  c : Nat
  d : Nat
  e : Nat
  f : Nat
  g : Nat
  h : Nat
deriving Repr

/-- One round of the SHA-256 compression function. -/
def compressStep (hs : Sha256Hs) (kw : Nat × Nat) : Sha256Hs :=
  let t1 := add32 hs.h (add32 (bigSigma1 hs.e)
              (add32 (chFn hs.e hs.f hs.g) (add32 kw.1 kw.2)))
  let t2 := add32 (bigSigma0 hs.a) (majFn hs.a hs.b hs.c)
  { a := add32 t1 t2, b := hs.a, c := hs.b, d := hs.c,
    e := add32 hs.d t1, f := hs.e, g := hs.f, h := hs.g }

/-- Process one 64-byte chunk. -/
def processChunk (hv : List Nat) (chunk : List Nat) : List Nat :=
  let ws := (extendSchedule 48 (wordsOfBytes chunk).reverse).reverse
  let s0 : Sha256Hs :=
    { a := hv.getD 0 0, b := hv.getD 1 0, c := hv.getD 2 0, d := hv.getD 3 0,
      e := hv.getD 4 0, f := hv.getD 5 0, g := hv.getD 6 0, h := hv.getD 7 0 }
  let s := (shaK.zip ws).foldl compressStep s0
  [add32 (hv.getD 0 0) s.a, add32 (hv.getD 1 0) s.b,
   add32 (hv.getD 2 0) s.c, add32 (hv.getD 3 0) s.d,
   add32 (hv.getD 4 0) s.e, add32 (hv.getD 5 0) s.f,
   add32 (hv.getD 6 0) s.g, add32 (hv.getD 7 0) s.h]

/-- Cut a byte list into 64-byte chunks; the fuel (any bound on the
number of chunks, e.g. the byte count) makes the recursion structural. -/
def toChunks : Nat → List Nat → List (List Nat)
  | 0, _ => []
  | fuel + 1, bytes =>
    if bytes.length < 64 then []
    else bytes.take 64 :: toChunks fuel (bytes.drop 64)

/-- Fold the compression function over all 64-byte chunks. -/
def processChunks (hv : List Nat) (bytes : List Nat) : List Nat :=
  (toChunks bytes.length bytes).foldl processChunk hv

/-- SHA-256 digest (32 bytes) of a byte list. -/
def sha256Bytes (msg : List Nat) : List Nat :=
  ((processChunks shaH0 (padMessage msg)).map (beBytes 4)).flatten

/-- Lowercase hex digits. -/
def hexDigits : List Char :=
  "0123456789abcdef".data

/-- Two lowercase hex characters of one byte (Go `%x` on a byte slice). -/
def byteHex (b : Nat) : List Char :=
  [hexDigits.getD (b / 16) '0', hexDigits.getD (b % 16) '0']

/-- Hex string of a byte list. -/
def hexOfBytes (bs : List Nat) : String :=
  String.mk ((bs.map byteHex).flatten)

/-- Bytes of a Go string; code points equal UTF-8 bytes for the ASCII
strings handled here. -/
def strBytes (s : String) : List Nat :=
  s.data.map Char.toNat

/-- `generateLockKey`: `wtree-<operation>-<hex of first 8 digest bytes>`. -/
def generateLockKey (operation targetPath : String) : String :=
  "wtree-" ++ operation ++ "-" ++
    hexOfBytes ((sha256Bytes (strBytes targetPath)).take 8)

/-- The filesystem visible to the lock code: lock-file path → contents. -/
abbrev FileSys := List (String × String)

/-- Association-list lookup (Go map read). -/
def assocFind (l : List (String × String)) (k : String) : Option String :=
  match l with
  | [] => none
  | p :: rest => if p.1 = k then some p.2 else assocFind rest k

/-- Does a file exist? -/
def fsExists (fs : FileSys) (path : String) : Bool :=
  (assocFind fs path).isSome

/-- Read a file (`os.ReadFile`). -/
def fsRead (fs : FileSys) (path : String) : Option String :=
  assocFind fs path

/-- Create a file with the given contents (used after an exclusive
create succeeded, so the path is fresh). -/
def fsCreate (fs : FileSys) (path contents : String) : FileSys :=
  (path, contents) :: fs

/-- Remove a file (`os.Remove`; removing a missing file is the
`IsNotExist` case the callers ignore). -/
def fsRemove (fs : FileSys) (path : String) : FileSys :=
  fs.filter (fun p => p.1 ≠ path)

/-- Filesystem accesses performed by the lock code, in order. -/
inductive FSEvent where
  | openExcl (path : String) (ok : Bool)
  | write (path : String)
  | read (path : String)
  | remove (path : String)
deriving DecidableEq, Repr

/-- The errors the lock code returns, tagged as in `pkg/types`
(validation / timeout-with-diagnostics / filesystem). -/
inductive LockError where
  | alreadyAcquiredManager
  | alreadyAcquiredLock
  | timeout (holder : Option String)
deriving DecidableEq, Repr

/-- `OperationLock`; the `*os.File` handle is modelled by `lockFileOpen`. -/
structure OperationLock where
  lockPath : String
  lockFileOpen : Bool
  pid : Nat
  operation : String
  acquired : Bool
  timeout : Nat
  retryDelay : Nat
deriving DecidableEq, Repr

/-- `LockManager`: the held-locks table is an association list keyed by
lock key. -/
structure LockManager where
  lockDir : String
  locks : List (String × OperationLock)
deriving DecidableEq, Repr

/-- `newOperationLock` (`filepath.Join` on the Unix lock dir). -/
def newOperationLock (lockDir lockKey operation : String) (pid : Nat)
    (timeout : Nat) : OperationLock :=
  { lockPath := lockDir ++ "/" ++ lockKey ++ ".lock",
    lockFileOpen := false, pid := pid, operation := operation,
    acquired := false, timeout := timeout, retryDelay := 100 }

/-- The `pid=…\noperation=…\ntime=…\n` lock record; the RFC3339
timestamp is an opaque parameter. -/
def lockInfoString (pid : Nat) (operation timeStr : String) : String :=
  "pid=" ++ toString pid ++ "\noperation=" ++ operation ++
    "\ntime=" ++ timeStr ++ "\n"

/-- Go `strconv.Atoi` on the characters of the string: optional sign,
decimal digits, 64-bit range. -/
def goAtoi (cs : List Char) : Option Int :=
  match cs with
  | [] => none
  | c :: rest =>
    let signed : Bool × List Char :=
      if c = '-' then (true, rest)
      else if c = '+' then (false, rest)
      else (false, c :: rest)
    if signed.2 = [] then none
    else if signed.2.all Char.isDigit then
      let n : Nat := signed.2.foldl (fun acc d => acc * 10 + (d.toNat - 48)) 0
      let v : Int := if signed.1 then -(n : Int) else (n : Int)
      if v < -(2 ^ 63) ∨ 2 ^ 63 - 1 < v then none else some v
    else none

/-- Go `strings.Split(s, "\n")` on the character list. -/
def splitLines : List Char → List (List Char)
  | [] => [[]]
  | c :: rest =>
    match splitLines rest with
    | [] => [[]]
    | l :: ls => if c = '\n' then [] :: l :: ls else (c :: l) :: ls

/-- Scan the `pid=`-tagged lines (Go slices bytes; for the ASCII tag a
character count is the same). -/
def extractPIDLines : List (List Char) → Int
  | [] => 0
  | line :: rest =>
    if line.length > 4 ∧ line.take 4 = ['p', 'i', 'd', '='] then
      match goAtoi (line.drop 4) with
      | some pid => pid
      | none => extractPIDLines rest
    else extractPIDLines rest

/-- `extractPIDFromLockInfo`. -/
def extractPIDFromLockInfo (lockInfo : String) : Int :=
  extractPIDLines (splitLines lockInfo.data)

/-- `isLockStale`: the platform liveness probe (`processExistsUnix` /
`processExistsWindows`) is the oracle `alive`. -/
def isLockStale (ol : OperationLock) (fs : FileSys)
    (alive : Int → Bool) : Bool :=
  match fsRead fs ol.lockPath with
  | none => true
  | some lockInfo =>
    let pid := extractPIDFromLockInfo lockInfo
    if pid > 0 then !alive pid else true

/-- Result of one `acquire` call: the error or the acquired handle,
the filesystem afterwards, and the accesses performed. -/
structure AcquireRes where
  result : Except LockError OperationLock
  fs : FileSys
  events : List FSEvent
deriving Repr

/-- The retry loop of `OperationLock.acquire`.  `elapsed` advances by
`retryDelay` at each sleep (the only modelled passage of time); the Go
loop terminates within `timeout / retryDelay + 2` iterations because a
stale-lock cleanup is immediately followed by a successful create, and
`acquireOL` supplies that fuel. -/
def acquireLoop (ol : OperationLock) (alive : Int → Bool) (timeStr : String) :
    Nat → Nat → FileSys → List FSEvent → AcquireRes
  | 0, _, fs, evs => { result := .error (.timeout none), fs := fs, events := evs }
  | fuel + 1, elapsed, fs, evs =>
    if fsExists fs ol.lockPath then
      let evs1 := evs ++ [FSEvent.openExcl ol.lockPath false]
      if elapsed ≥ ol.timeout then
        match fsRead fs ol.lockPath with
        | some info =>
          { result := .error (.timeout (some info)), fs := fs,
            events := evs1 ++ [FSEvent.read ol.lockPath] }
        | none =>
          { result := .error (.timeout none), fs := fs,
            events := evs1 ++ [FSEvent.read ol.lockPath] }
      else if isLockStale ol fs alive then
        acquireLoop ol alive timeStr fuel elapsed (fsRemove fs ol.lockPath)
          (evs1 ++ [FSEvent.read ol.lockPath, FSEvent.remove ol.lockPath])
      else
        acquireLoop ol alive timeStr fuel (elapsed + ol.retryDelay) fs
          (evs1 ++ [FSEvent.read ol.lockPath])
    else
      let contents := lockInfoString ol.pid ol.operation timeStr
      { result := .ok { ol with acquired := true, lockFileOpen := true },
        fs := fsCreate fs ol.lockPath contents,
        events := evs ++ [FSEvent.openExcl ol.lockPath true,
                          FSEvent.write ol.lockPath] }

/-- `OperationLock.acquire`. -/
def acquireOL (ol : OperationLock) (alive : Int → Bool) (timeStr : String)
    (fs : FileSys) : AcquireRes :=
  if ol.acquired then
    { result := .error .alreadyAcquiredLock, fs := fs, events := [] }
  else
    acquireLoop ol alive timeStr (ol.timeout / ol.retryDelay + 2) 0 fs []

/-- `OperationLock.cleanup`: close the handle, delete the lock file
(a missing file is ignored; no other removal failure is modelled). -/
def cleanupOL (ol : OperationLock) (fs : FileSys) :
    OperationLock × FileSys × List FSEvent :=
  ({ ol with lockFileOpen := false }, fsRemove fs ol.lockPath,
   [FSEvent.remove ol.lockPath])

/-- `OperationLock.Release` (idempotent). -/
def releaseOL (ol : OperationLock) (fs : FileSys) :
    OperationLock × FileSys × List FSEvent :=
  if ol.acquired then
    let r := cleanupOL ol fs
    ({ r.1 with acquired := false }, r.2.1, r.2.2)
  else (ol, fs, [])

/-- Result of `LockManager.AcquireLock`. -/
structure ManagerAcquireRes where
  result : Except LockError OperationLock
  manager : LockManager
  fs : FileSys
  events : List FSEvent
deriving Repr

/-- Go map assignment `lm.locks[lockKey] = lock` on the association list. -/
def assocSet (l : List (String × OperationLock)) (k : String)
    (v : OperationLock) : List (String × OperationLock) :=
  match l with
  | [] => [(k, v)]
  | p :: rest => if p.1 = k then (k, v) :: rest else p :: assocSet rest k v

/-- Go map lookup on the held-locks table. -/
def locksFind (l : List (String × OperationLock)) (k : String) :
    Option OperationLock :=
  match l with
  | [] => none
  | p :: rest => if p.1 = k then some p.2 else locksFind rest k

/-- `LockManager.AcquireLock`: reject if this process already holds an
acquired lock for the key (no filesystem access), otherwise create a
handle and run its `acquire`. -/
def AcquireLock (lm : LockManager) (pid : Nat) (alive : Int → Bool)
    (timeStr : String) (lockType targetPath : String) (timeout : Nat)
    (fs : FileSys) : ManagerAcquireRes :=
  let lockKey := generateLockKey lockType targetPath
  let alreadyHeld :=
    match locksFind lm.locks lockKey with
    | some existingLock => existingLock.acquired
    | none => false
  if alreadyHeld then
    { result := .error .alreadyAcquiredManager, manager := lm, fs := fs,
      events := [] }
  else
    let lock := newOperationLock lm.lockDir lockKey lockType pid timeout
    let r := acquireOL lock alive timeStr fs
    match r.result with
    | .error e =>
      -- failed acquire: `lock.cleanup()` best effort, error returned
      let c := cleanupOL lock r.fs
      { result := .error e, manager := lm, fs := c.2.1,
        events := r.events ++ c.2.2 }
    | .ok acquiredLock =>
      { result := .ok acquiredLock,
        manager := { lm with locks := assocSet lm.locks lockKey acquiredLock },
        fs := r.fs, events := r.events }

/-- Remove the first table entry holding exactly this handle
(Go compares the `*OperationLock` pointer; handles held by a manager are
determined by their key, so value equality is faithful here). -/
def removeTracked (l : List (String × OperationLock)) (lock : OperationLock) :
    List (String × OperationLock) :=
  match l with
  | [] => []
  | p :: rest => if p.2 = lock then rest else p :: removeTracked rest lock

/-- `LockManager.ReleaseLock` (a `nil` handle argument is `none`). -/
def ReleaseLock (lm : LockManager) (lock : Option OperationLock)
    (fs : FileSys) : LockManager × OperationLock × FileSys × List FSEvent :=
  match lock with
  | none => (lm, { lockPath := "", lockFileOpen := false, pid := 0,
                   operation := "", acquired := false, timeout := 0,
                   retryDelay := 0 }, fs, [])
  | some l =>
    let lm1 : LockManager := { lm with locks := removeTracked lm.locks l }
    let r := releaseOL l fs
    (lm1, r.1, r.2.1, r.2.2)

/-!  Concrete inputs used by witnesses and counterexamples. -/

/-- A rollback operation literal for concrete scenarios. -/
def cexOp (i : Nat) (critical actionOk : Bool) (deps : List Nat) :
    RollbackOperation :=
  { type := .removeFiles, actionOk := actionOk, critical := critical,
    id := i, dependsOn := deps }

/-- A manager literal for concrete scenarios. -/
def mgrOf (ops : List RollbackOperation) (failFast explicitSet : Bool) :
    RollbackManager :=
  { operations := ops, dependencies := [], failFast := failFast,
    failFastExplicitlySet := explicitSet, lastError := none }

/-- A liveness oracle under which every pid is alive. -/
def aliveAll : Int → Bool := fun _ => true

/-- A concrete held handle for the C7 scenario. -/
def lHeld : OperationLock :=
  { lockPath := "/tmp/wtree-locks" ++ "/" ++ generateLockKey "create" "/repo/A"
      ++ ".lock",
    lockFileOpen := true, pid := 1234, operation := "create",
    acquired := true, timeout := 5000, retryDelay := 100 }

/-- A manager holding `lHeld` for the C7 scenario. -/
def lmHeld : LockManager :=
  { lockDir := "/tmp/wtree-locks",
    locks := [(generateLockKey "create" "/repo/A", lHeld)] }

/-- The filesystem while `lHeld` is held. -/
def fsHeld : FileSys :=
  [(lHeld.lockPath, lockInfoString 1234 "create" "T")]

/-- The invariant linking `lastError` to the error list: `lastError`
is the most recently recorded error, or the pre-`Execute` value `init`
when none has been recorded yet. -/
def lastErrLink (init : Option ExecErr) (st : ExecSt) : Prop :=
  st.lastError = match st.errors.getLast? with
    | some e => some e
    | none => init

/-- Flip an operation's critical flag (used to state that the
dependency-aware mode never reads it). -/
def flipCritical (op : RollbackOperation) : RollbackOperation :=
  { op with critical := !op.critical }

/-- `i` is invoked strictly before `j` in the trace `tr`. -/
def IdBefore (i j : Nat) (tr : List Nat) : Prop :=
  ∃ t1 t2, tr = t1 ++ j :: t2 ∧ i ∈ t1

/-- The state carried by either phase-1 exit. -/
def p1state : P1Res → ExecSt
  | .abort _ st => st
  | .ok st => st

/-!  ## Theorems -/

/-- Bridge between `List.contains` and membership. -/
theorem contains_iff_mem {l : List Nat} {x : Nat} :
    l.contains x = true ↔ x ∈ l := by
  simp [List.contains, List.elem_iff]

/-- Strings with equal character lists are equal. -/
theorem stringDataInj {s t : String} (h : s.data = t.data) : s = t := by
  cases s; cases t; cases h; rfl

/-- A `pid=`-line scan over lines none of which carries a positive
parsed value returns a non-positive pid. -/
theorem extractPIDLines_nonpos (ls : List (List Char))
    (h : ∀ line ∈ ls, line.length > 4 → line.take 4 = ['p', 'i', 'd', '='] →
      ∀ v, goAtoi (line.drop 4) = some v → v ≤ 0) :
    extractPIDLines ls ≤ 0 := by
  induction ls with
  | nil => simp [extractPIDLines]
  | cons line rest ih =>
    have hrest : extractPIDLines rest ≤ 0 :=
      ih (fun l hl => h l (List.mem_cons_of_mem _ hl))
    by_cases h1 : line.length > 4 ∧ line.take 4 = ['p', 'i', 'd', '=']
    · rcases hgo : goAtoi (line.drop 4) with _ | pid
      · simpa [extractPIDLines, h1, hgo] using hrest
      · have := h line (List.mem_cons_self _ _) h1.1 h1.2 pid hgo
        simpa [extractPIDLines, h1, hgo] using this
    · simpa [extractPIDLines, h1] using hrest

/-- A scan over lines none of which even parses returns exactly 0. -/
theorem extractPIDLines_zero (ls : List (List Char))
    (h : ∀ line ∈ ls, ¬(line.length > 4 ∧
      line.take 4 = ['p', 'i', 'd', '='] ∧ (goAtoi (line.drop 4)).isSome)) :
    extractPIDLines ls = 0 := by
  induction ls with
  | nil => simp [extractPIDLines]
  | cons line rest ih =>
    have hrest : extractPIDLines rest = 0 :=
      ih (fun l hl => h l (List.mem_cons_of_mem _ hl))
    by_cases h1 : line.length > 4 ∧ line.take 4 = ['p', 'i', 'd', '=']
    · rcases hgo : goAtoi (line.drop 4) with _ | pid
      · simpa [extractPIDLines, h1, hgo] using hrest
      · exact absurd ⟨h1.1, h1.2, by simp [hgo]⟩ (h line (List.mem_cons_self _ _))
    · simpa [extractPIDLines, h1] using hrest

/-- Claim C9 (confirmed): an existing lock file whose content cannot be
read, or whose content has no line parsing as `pid=<positive integer>`,
is classified stale; and `extractPIDFromLockInfo` returns 0 when no
`pid=` line parses at all. -/
theorem c9_unparsable_pid_is_stale (ol : OperationLock) (fs : FileSys)
    (alive : Int → Bool) :
    (fsRead fs ol.lockPath = none → isLockStale ol fs alive = true) ∧
    (∀ content, fsRead fs ol.lockPath = some content →
      (∀ line ∈ splitLines content.data, line.length > 4 →
        line.take 4 = ['p', 'i', 'd', '='] →
        ∀ v, goAtoi (line.drop 4) = some v → v ≤ 0) →
      isLockStale ol fs alive = true) ∧
    (∀ content,
      (∀ line ∈ splitLines content.data, ¬(line.length > 4 ∧
        line.take 4 = ['p', 'i', 'd', '='] ∧ (goAtoi (line.drop 4)).isSome)) →
      extractPIDFromLockInfo content = 0) := by
  refine ⟨fun hread => by simp [isLockStale, hread], ?_, ?_⟩
  · intro content hread h
    have hle : extractPIDFromLockInfo content ≤ 0 :=
      extractPIDLines_nonpos _ h
    have : ¬ extractPIDFromLockInfo content > 0 := by omega
    simp [isLockStale, hread, this]
  · intro content h
    exact extractPIDLines_zero _ h

/-- Witness for C9 at a concrete unreadable path and a concrete
garbage-content lock file. -/
theorem c9_witness :
    isLockStale
      { lockPath := "/tmp/wtree-locks/k.lock", lockFileOpen := false,
        pid := 1, operation := "create", acquired := false,
        timeout := 5000, retryDelay := 100 }
      [("/tmp/wtree-locks/k.lock", "garbage\npid=abc\npid=-3\n")]
      aliveAll = true ∧
    extractPIDFromLockInfo "garbage\npid=abc\n" = 0 := by
  constructor
  · exact (c9_unparsable_pid_is_stale _ _ _).2.1 "garbage\npid=abc\npid=-3\n"
      (by decide) (by decide)
  · exact (c9_unparsable_pid_is_stale
      { lockPath := "", lockFileOpen := false, pid := 1, operation := "",
        acquired := false, timeout := 0, retryDelay := 100 } [] aliveAll).2.2
      "garbage\npid=abc\n" (by decide)

/-- Claim C10 (confirmed): `AddDependency` with an out-of-range
`dependentID` is silently ignored (manager unchanged, no error value
exists to report), while an in-range `dependentID` records the edge for
any `dependsOnID` whatsoever — `dependsOnID` is never bounds-checked. -/
theorem c10_addDependency_bounds (rm : RollbackManager)
    (dependentID dependsOnID : Nat) :
    (rm.operations.length ≤ dependentID →
      AddDependency rm dependentID dependsOnID = rm) ∧
    (∀ h : dependentID < rm.operations.length,
      (AddDependency rm dependentID dependsOnID).operations =
        rm.operations.set dependentID
          { rm.operations.get ⟨dependentID, h⟩ with
            dependsOn := (rm.operations.get ⟨dependentID, h⟩).dependsOn
              ++ [dependsOnID] } ∧
      (AddDependency rm dependentID dependsOnID).dependencies =
        rm.dependencies ++ [(dependsOnID, dependentID)]) := by
  constructor
  · intro hge
    have : ¬ dependentID < rm.operations.length := by omega
    simp [AddDependency, this]
  · intro h
    simp [AddDependency, h]

/-- Witness for C10: out-of-range call on a one-operation ledger is the
identity; in-range call records an (unchecked) edge to id 99. -/
theorem c10_witness :
    AddDependency (mgrOf [cexOp 0 true true []] true false) 5 0 =
      mgrOf [cexOp 0 true true []] true false ∧
    (AddDependency (mgrOf [cexOp 0 true true []] true false) 0 99).dependencies
      = [(99, 0)] := by
  constructor
  · exact (c10_addDependency_bounds _ 5 0).1 (by decide)
  · exact ((c10_addDependency_bounds _ 0 99).2 (by decide)).2

/-- Claim C6, amended (corrected): the lock key is a deterministic
function of the operation kind and the raw target-path string (no
normalization happens), and different operation kinds on the same
target always yield different keys. -/
theorem c6_lockKey_deterministic_and_kind_distinct :
    (∀ operation p1 p2 : String, p1 = p2 →
      generateLockKey operation p1 = generateLockKey operation p2) ∧
    (∀ op1 op2 p : String, op1 ≠ op2 →
      generateLockKey op1 p ≠ generateLockKey op2 p) := by
  constructor
  · intro operation p1 p2 h
    rw [h]
  · intro op1 op2 p hne heq
    apply hne
    have hdata := congrArg String.data heq
    simp only [generateLockKey, String.data_append] at hdata
    have h1 := List.append_cancel_right hdata
    have h2 := List.append_cancel_right h1
    exact stringDataInj (List.append_cancel_left h2)

/-- Counterexample for C6 as stated: two spellings of the same logical
path (`/repo/A` and `/repo//A`) give different lock keys, because the
raw string is hashed without normalization. -/
theorem c6_counterexample :
    generateLockKey "create" "/repo/A" ≠ generateLockKey "create" "/repo//A"
    := by decide

/-- Witness for C6 at concrete kinds and paths. -/
theorem c6_witness :
    generateLockKey "create" "/repo/A" = generateLockKey "create" "/repo/A" ∧
    generateLockKey "create" "/repo/A" ≠ generateLockKey "delete" "/repo/A"
    := ⟨(c6_lockKey_deterministic_and_kind_distinct).1 "create" "/repo/A"
          "/repo/A" rfl,
        (c6_lockKey_deterministic_and_kind_distinct).2 "create" "delete"
          "/repo/A" (by decide)⟩

/-- A key that occurs in no table entry is not found. -/
theorem locksFind_none_of_not_mem (locks : List (String × OperationLock))
    (key : String) (h : key ∉ locks.map Prod.fst) :
    locksFind locks key = none := by
  induction locks with
  | nil => rfl
  | cons p rest ih =>
    simp only [List.map_cons, List.mem_cons, not_or] at h
    have hne : p.1 ≠ key := fun he => h.1 he.symm
    simp only [locksFind, if_neg hne]
    exact ih h.2

/-- Removing the tracked handle of a key removes every entry under that
key, provided keys are unique and the handle occurs only under its key. -/
theorem removeTracked_find_none (locks : List (String × OperationLock))
    (key : String) (l : OperationLock)
    (hfind : locksFind locks key = some l)
    (huniq : ∀ p ∈ locks, p.2 = l → p.1 = key)
    (hnodup : (locks.map Prod.fst).Nodup) :
    locksFind (removeTracked locks l) key = none := by
  induction locks with
  | nil => simp [locksFind] at hfind
  | cons p rest ih =>
    simp only [List.map_cons, List.nodup_cons] at hnodup
    by_cases hk : p.1 = key
    · have hpv : p.2 = l := by
        simpa [locksFind, hk] using hfind
      have : removeTracked (p :: rest) l = rest := by
        simp [removeTracked, hpv]
      rw [this]
      exact locksFind_none_of_not_mem rest key (hk ▸ hnodup.1)
    · have hpv : p.2 ≠ l := fun he => hk (huniq p (List.mem_cons_self _ _) he)
      have hfind2 : locksFind rest key = some l := by
        simpa [locksFind, hk] using hfind
      have : removeTracked (p :: rest) l = p :: removeTracked rest l := by
        simp [removeTracked, hpv]
      rw [this]
      simp only [locksFind, if_neg hk]
      exact ih hfind2 (fun q hq => huniq q (List.mem_cons_of_mem _ hq)) hnodup.2

/-- A removed path no longer exists. -/
theorem fsExists_fsRemove_self (fs : FileSys) (path : String) :
    fsExists (fsRemove fs path) path = false := by
  induction fs with
  | nil => rfl
  | cons p rest ih =>
    by_cases hp : p.1 = path
    · simpa [fsRemove, hp] using ih
    · simpa [fsRemove, fsExists, assocFind, hp] using ih

/-- Claim C7 (confirmed): while the manager holds an acquired lock for
the key of `(kind, targetPath)`, an identical `AcquireLock` returns the
"lock already acquired" validation error with no filesystem access and
no state change; after `ReleaseLock` of the held handle, an identical
`AcquireLock` succeeds again. -/
theorem c7_held_key_rejected_then_reacquirable
    (lm : LockManager) (pid : Nat) (alive : Int → Bool)
    (timeStr t2 : String) (lockType targetPath : String) (timeout : Nat)
    (fs : FileSys) (l : OperationLock)
    (hfind : locksFind lm.locks (generateLockKey lockType targetPath) = some l)
    (hacq : l.acquired = true) :
    AcquireLock lm pid alive timeStr lockType targetPath timeout fs =
      { result := .error .alreadyAcquiredManager, manager := lm, fs := fs,
        events := [] } ∧
    (l.lockPath = lm.lockDir ++ "/" ++ generateLockKey lockType targetPath
        ++ ".lock" →
     (∀ p ∈ lm.locks, p.2 = l →
        p.1 = generateLockKey lockType targetPath) →
     (lm.locks.map Prod.fst).Nodup →
     ∃ newLock,
       (AcquireLock (ReleaseLock lm (some l) fs).1 pid alive t2 lockType
         targetPath timeout (ReleaseLock lm (some l) fs).2.2.1).result =
           .ok newLock ∧ newLock.acquired = true) := by
  constructor
  · simp [AcquireLock, hfind, hacq]
  · intro hpath huniq hnodup
    have hrel1 : (ReleaseLock lm (some l) fs).1 =
        { lm with locks := removeTracked lm.locks l } := rfl
    have hrelfs : (ReleaseLock lm (some l) fs).2.2.1 =
        fsRemove fs l.lockPath := by
      simp [ReleaseLock, releaseOL, hacq, cleanupOL]
    have hfind2 : locksFind (removeTracked lm.locks l)
        (generateLockKey lockType targetPath) = none :=
      removeTracked_find_none lm.locks _ l hfind huniq hnodup
    rw [hrel1, hrelfs]
    have hexists : fsExists (fsRemove fs l.lockPath)
        (lm.lockDir ++ "/" ++ generateLockKey lockType targetPath
          ++ ".lock") = false := by
      rw [← hpath]; exact fsExists_fsRemove_self fs l.lockPath
    have hfuel : timeout / 100 + 2 = (timeout / 100 + 1) + 1 := rfl
    refine ⟨{ newOperationLock lm.lockDir
        (generateLockKey lockType targetPath) lockType pid timeout with
        acquired := true, lockFileOpen := true }, ?_, rfl⟩
    simp only [AcquireLock, hfind2, acquireOL, newOperationLock, hfuel,
      Bool.false_eq_true, if_false, acquireLoop, hexists]

/-- An operation with no recorded failures around is never skipped. -/
theorem shouldSkip_nil (op : RollbackOperation) :
    shouldSkipOperation op [] = false := by
  simp [shouldSkipOperation]

/-- An operation depending on a failed operation is skipped. -/
theorem shouldSkip_of_mem {op : RollbackOperation} {failed : List Nat}
    {d : Nat} (hd : d ∈ op.dependsOn) (hf : d ∈ failed) :
    shouldSkipOperation op failed = true := by
  simp only [shouldSkipOperation, List.any_eq_true]
  exact ⟨d, hd, contains_iff_mem.mpr hf⟩

/-- Phase 1 distributes over list append. -/
theorem phase1_append (es : Bool) :
    ∀ (a b : List RollbackOperation) (st : ExecSt),
      phase1 es (a ++ b) st =
        match phase1 es a st with
        | .ok st1 => phase1 es b st1
        | .abort k st1 => .abort k st1
  | [], b, st => rfl
  | op :: rest, b, st => by
    simp only [List.cons_append, phase1]
    by_cases hc : op.critical = false
    · rw [if_pos hc, if_pos hc]
      exact phase1_append es rest b st
    · rw [if_neg hc, if_neg hc]
      by_cases hs : shouldSkipOperation op st.failed
      · rw [if_pos hs, if_pos hs]
        exact phase1_append es rest b st
      · rw [if_neg hs, if_neg hs]
        by_cases hok : op.actionOk
        · rw [if_pos hok, if_pos hok]
          exact phase1_append es rest b (execSuccess op st)
        · rw [if_neg hok, if_neg hok]
          by_cases hes : es
          · rw [if_pos hes, if_pos hes]
          · rw [if_neg hes, if_neg hes]
            exact phase1_append es rest b (execFailure op st)

/-- Shape of any phase-1 exit state: the trace is extended with ids of
critical members, the failed and executed sets only grow with ids of
critical members, and the error list is extended. -/
theorem phase1_shape (es : Bool) :
    ∀ (l : List RollbackOperation) (st : ExecSt),
      (∃ t, (p1state (phase1 es l st)).trace = st.trace ++ t ∧
        ∀ i ∈ t, ∃ op, op ∈ l ∧ op.id = i ∧ op.critical = true) ∧
      (∃ f, (p1state (phase1 es l st)).failed = f ++ st.failed ∧
        ∀ i ∈ f, ∃ op, op ∈ l ∧ op.id = i ∧ op.critical = true) ∧
      (∃ x, (p1state (phase1 es l st)).executed = x ++ st.executed ∧
        ∀ i ∈ x, ∃ op, op ∈ l ∧ op.id = i ∧ op.critical = true) ∧
      (∃ e, (p1state (phase1 es l st)).errors = st.errors ++ e)
  | [], st => by
    refine ⟨⟨[], by simp [phase1, p1state], by simp⟩,
      ⟨[], by simp [phase1, p1state], by simp⟩,
      ⟨[], by simp [phase1, p1state], by simp⟩,
      ⟨[], by simp [phase1, p1state]⟩⟩
  | op :: rest, st => by
    simp only [phase1]
    by_cases hc : op.critical = false
    · rw [if_pos hc]
      obtain ⟨⟨t, ht, htm⟩, ⟨f, hf, hfm⟩, ⟨x, hx, hxm⟩, ⟨e, he⟩⟩ :=
        phase1_shape es rest st
      exact ⟨⟨t, ht, fun i hi => (htm i hi).imp
          (fun o ho => ⟨List.mem_cons_of_mem _ ho.1, ho.2⟩)⟩,
        ⟨f, hf, fun i hi => (hfm i hi).imp
          (fun o ho => ⟨List.mem_cons_of_mem _ ho.1, ho.2⟩)⟩,
        ⟨x, hx, fun i hi => (hxm i hi).imp
          (fun o ho => ⟨List.mem_cons_of_mem _ ho.1, ho.2⟩)⟩,
        ⟨e, he⟩⟩
    · rw [if_neg hc]
      have hcrit : op.critical = true := by
        cases hcv : op.critical
        · exact absurd hcv hc
        · rfl
      by_cases hs : shouldSkipOperation op st.failed
      · rw [if_pos hs]
        obtain ⟨⟨t, ht, htm⟩, ⟨f, hf, hfm⟩, ⟨x, hx, hxm⟩, ⟨e, he⟩⟩ :=
          phase1_shape es rest st
        exact ⟨⟨t, ht, fun i hi => (htm i hi).imp
            (fun o ho => ⟨List.mem_cons_of_mem _ ho.1, ho.2⟩)⟩,
          ⟨f, hf, fun i hi => (hfm i hi).imp
            (fun o ho => ⟨List.mem_cons_of_mem _ ho.1, ho.2⟩)⟩,
          ⟨x, hx, fun i hi => (hxm i hi).imp
            (fun o ho => ⟨List.mem_cons_of_mem _ ho.1, ho.2⟩)⟩,
          ⟨e, he⟩⟩
      · rw [if_neg hs]
        by_cases hok : op.actionOk
        · rw [if_pos hok]
          obtain ⟨⟨t, ht, htm⟩, ⟨f, hf, hfm⟩, ⟨x, hx, hxm⟩, ⟨e, he⟩⟩ :=
            phase1_shape es rest (execSuccess op st)
          refine ⟨⟨op.id :: t, ?_, ?_⟩, ⟨f, ?_, ?_⟩,
            ⟨x ++ [op.id], ?_, ?_⟩, ⟨e, ?_⟩⟩
          · rw [ht]; simp [execSuccess]
          · intro i hi
            rcases List.mem_cons.mp hi with hi | hi
            · exact ⟨op, List.mem_cons_self _ _, hi.symm, hcrit⟩
            · exact (htm i hi).imp
                (fun o ho => ⟨List.mem_cons_of_mem _ ho.1, ho.2⟩)
          · rw [hf]; simp [execSuccess]
          · intro i hi
            exact (hfm i hi).imp
              (fun o ho => ⟨List.mem_cons_of_mem _ ho.1, ho.2⟩)
          · rw [hx]; simp [execSuccess]
          · intro i hi
            rcases List.mem_append.mp hi with hi | hi
            · exact (hxm i hi).imp
                (fun o ho => ⟨List.mem_cons_of_mem _ ho.1, ho.2⟩)
            · rcases List.mem_singleton.mp hi with rfl
              exact ⟨op, List.mem_cons_self _ _, rfl, hcrit⟩
          · rw [he]; simp [execSuccess]
        · rw [if_neg hok]
          by_cases hes : es
          · rw [if_pos hes]
            refine ⟨⟨[op.id], by simp [p1state, abortState], ?_⟩,
              ⟨[], by simp [p1state, abortState], by simp⟩,
              ⟨[], by simp [p1state, abortState], by simp⟩,
              ⟨[], by simp [p1state, abortState]⟩⟩
            intro i hi
            rcases List.mem_singleton.mp hi with rfl
            exact ⟨op, List.mem_cons_self _ _, rfl, hcrit⟩
          · rw [if_neg hes]
            obtain ⟨⟨t, ht, htm⟩, ⟨f, hf, hfm⟩, ⟨x, hx, hxm⟩, ⟨e, he⟩⟩ :=
              phase1_shape es rest (execFailure op st)
            refine ⟨⟨op.id :: t, ?_, ?_⟩, ⟨f ++ [op.id], ?_, ?_⟩,
              ⟨x, ?_, ?_⟩, ⟨ExecErr.actionFailed op.id :: e, ?_⟩⟩
            · rw [ht]; simp [execFailure]
            · intro i hi
              rcases List.mem_cons.mp hi with hi | hi
              · exact ⟨op, List.mem_cons_self _ _, hi.symm, hcrit⟩
              · exact (htm i hi).imp
                  (fun o ho => ⟨List.mem_cons_of_mem _ ho.1, ho.2⟩)
            · rw [hf]; simp [execFailure]
            · intro i hi
              rcases List.mem_append.mp hi with hi | hi
              · exact (hfm i hi).imp
                  (fun o ho => ⟨List.mem_cons_of_mem _ ho.1, ho.2⟩)
              · rcases List.mem_singleton.mp hi with rfl
                exact ⟨op, List.mem_cons_self _ _, rfl, hcrit⟩
            · rw [hx]; simp [execFailure]
            · intro i hi
              exact (hxm i hi).imp
                (fun o ho => ⟨List.mem_cons_of_mem _ ho.1, ho.2⟩)
            · rw [he]; simp [execFailure]

/-- Shape of the phase-2 exit state: the trace is extended with ids of
non-critical members; failed, executed and errors only grow. -/
theorem phase2_shape :
    ∀ (l : List RollbackOperation) (st : ExecSt),
      (∃ t, (phase2 l st).trace = st.trace ++ t ∧
        ∀ i ∈ t, ∃ op, op ∈ l ∧ op.id = i ∧ op.critical = false) ∧
      (∃ f, (phase2 l st).failed = f ++ st.failed) ∧
      (∃ x, (phase2 l st).executed = x ++ st.executed) ∧
      (∃ e, (phase2 l st).errors = st.errors ++ e)
  | [], st => ⟨⟨[], by simp [phase2], by simp⟩, ⟨[], by simp [phase2]⟩,
      ⟨[], by simp [phase2]⟩, ⟨[], by simp [phase2]⟩⟩
  | op :: rest, st => by
    simp only [phase2]
    by_cases hc : op.critical
    · rw [if_pos hc]
      obtain ⟨⟨t, ht, htm⟩, ⟨f, hf⟩, ⟨x, hx⟩, ⟨e, he⟩⟩ := phase2_shape rest st
      exact ⟨⟨t, ht, fun i hi => (htm i hi).imp
          (fun o ho => ⟨List.mem_cons_of_mem _ ho.1, ho.2⟩)⟩,
        ⟨f, hf⟩, ⟨x, hx⟩, ⟨e, he⟩⟩
    · rw [if_neg hc]
      have hcf : op.critical = false := by
        cases hcv : op.critical
        · rfl
        · exact absurd hcv hc
      by_cases he2 : st.executed.contains op.id
      · rw [if_pos he2]
        obtain ⟨⟨t, ht, htm⟩, ⟨f, hf⟩, ⟨x, hx⟩, ⟨e, he⟩⟩ :=
          phase2_shape rest st
        exact ⟨⟨t, ht, fun i hi => (htm i hi).imp
            (fun o ho => ⟨List.mem_cons_of_mem _ ho.1, ho.2⟩)⟩,
          ⟨f, hf⟩, ⟨x, hx⟩, ⟨e, he⟩⟩
      · rw [if_neg he2]
        by_cases hs : shouldSkipOperation op st.failed
        · rw [if_pos hs]
          obtain ⟨⟨t, ht, htm⟩, ⟨f, hf⟩, ⟨x, hx⟩, ⟨e, he⟩⟩ :=
            phase2_shape rest st
          exact ⟨⟨t, ht, fun i hi => (htm i hi).imp
              (fun o ho => ⟨List.mem_cons_of_mem _ ho.1, ho.2⟩)⟩,
            ⟨f, hf⟩, ⟨x, hx⟩, ⟨e, he⟩⟩
        · rw [if_neg hs]
          by_cases hok : op.actionOk
          · rw [if_pos hok]
            obtain ⟨⟨t, ht, htm⟩, ⟨f, hf⟩, ⟨x, hx⟩, ⟨e, he⟩⟩ :=
              phase2_shape rest (execSuccess op st)
            refine ⟨⟨op.id :: t, ?_, ?_⟩, ⟨f, ?_⟩, ⟨x ++ [op.id], ?_⟩,
              ⟨e, ?_⟩⟩
            · rw [ht]; simp [execSuccess]
            · intro i hi
              rcases List.mem_cons.mp hi with hi | hi
              · exact ⟨op, List.mem_cons_self _ _, hi.symm, hcf⟩
              · exact (htm i hi).imp
                  (fun o ho => ⟨List.mem_cons_of_mem _ ho.1, ho.2⟩)
            · rw [hf]; simp [execSuccess]
            · rw [hx]; simp [execSuccess]
            · rw [he]; simp [execSuccess]
          · rw [if_neg hok]
            obtain ⟨⟨t, ht, htm⟩, ⟨f, hf⟩, ⟨x, hx⟩, ⟨e, he⟩⟩ :=
              phase2_shape rest (execFailure op st)
            refine ⟨⟨op.id :: t, ?_, ?_⟩, ⟨f ++ [op.id], ?_⟩, ⟨x, ?_⟩,
              ⟨ExecErr.actionFailed op.id :: e, ?_⟩⟩
            · rw [ht]; simp [execFailure]
            · intro i hi
              rcases List.mem_cons.mp hi with hi | hi
              · exact ⟨op, List.mem_cons_self _ _, hi.symm, hcf⟩
              · exact (htm i hi).imp
                  (fun o ho => ⟨List.mem_cons_of_mem _ ho.1, ho.2⟩)
            · rw [hf]; simp [execFailure]
            · rw [hx]; simp [execFailure]
            · rw [he]; simp [execFailure]

/-- If every occurrence of id `x` in the list depends on the already
failed id `d`, phase 1 never invokes `x`. -/
theorem phase1_skip (es : Bool) (x d : Nat) :
    ∀ (l : List RollbackOperation) (st : ExecSt), d ∈ st.failed →
      (∀ op ∈ l, op.id = x → d ∈ op.dependsOn) →
      x ∈ (p1state (phase1 es l st)).trace → x ∈ st.trace
  | [], st, _, _, hx => by simpa [phase1, p1state] using hx
  | op :: rest, st, hd, hdep, hx => by
    simp only [phase1] at hx
    by_cases hc : op.critical = false
    · rw [if_pos hc] at hx
      exact phase1_skip es x d rest st hd
        (fun o ho => hdep o (List.mem_cons_of_mem _ ho)) hx
    · rw [if_neg hc] at hx
      by_cases hs : shouldSkipOperation op st.failed
      · rw [if_pos hs] at hx
        exact phase1_skip es x d rest st hd
          (fun o ho => hdep o (List.mem_cons_of_mem _ ho)) hx
      · rw [if_neg hs] at hx
        have hne : op.id ≠ x := fun he =>
          hs (shouldSkip_of_mem (hdep op (List.mem_cons_self _ _) he) hd)
        by_cases hok : op.actionOk
        · rw [if_pos hok] at hx
          have := phase1_skip es x d rest (execSuccess op st)
            (by simpa [execSuccess] using hd)
            (fun o ho => hdep o (List.mem_cons_of_mem _ ho)) hx
          simp only [execSuccess, List.mem_append, List.mem_singleton]
            at this
          rcases this with h | h
          · exact h
          · exact absurd h.symm hne
        · rw [if_neg hok] at hx
          by_cases hes : es
          · rw [if_pos hes] at hx
            simp only [p1state, abortState, List.mem_append,
              List.mem_singleton] at hx
            rcases hx with h | h
            · exact h
            · exact absurd h.symm hne
          · rw [if_neg hes] at hx
            have := phase1_skip es x d rest (execFailure op st)
              (by simp [execFailure, hd])
              (fun o ho => hdep o (List.mem_cons_of_mem _ ho)) hx
            simp only [execFailure, List.mem_append, List.mem_singleton]
              at this
            rcases this with h | h
            · exact h
            · exact absurd h.symm hne

/-- If every occurrence of id `x` in the list depends on the already
failed id `d`, phase 2 never invokes `x`. -/
theorem phase2_skip (x d : Nat) :
    ∀ (l : List RollbackOperation) (st : ExecSt), d ∈ st.failed →
      (∀ op ∈ l, op.id = x → d ∈ op.dependsOn) →
      x ∈ (phase2 l st).trace → x ∈ st.trace
  | [], st, _, _, hx => by simpa [phase2] using hx
  | op :: rest, st, hd, hdep, hx => by
    simp only [phase2] at hx
    by_cases hc : op.critical
    · rw [if_pos hc] at hx
      exact phase2_skip x d rest st hd
        (fun o ho => hdep o (List.mem_cons_of_mem _ ho)) hx
    · rw [if_neg hc] at hx
      by_cases he2 : st.executed.contains op.id
      · rw [if_pos he2] at hx
        exact phase2_skip x d rest st hd
          (fun o ho => hdep o (List.mem_cons_of_mem _ ho)) hx
      · rw [if_neg he2] at hx
        by_cases hs : shouldSkipOperation op st.failed
        · rw [if_pos hs] at hx
          exact phase2_skip x d rest st hd
            (fun o ho => hdep o (List.mem_cons_of_mem _ ho)) hx
        · rw [if_neg hs] at hx
          have hne : op.id ≠ x := fun he =>
            hs (shouldSkip_of_mem (hdep op (List.mem_cons_self _ _) he) hd)
          by_cases hok : op.actionOk
          · rw [if_pos hok] at hx
            have := phase2_skip x d rest (execSuccess op st)
              (by simpa [execSuccess] using hd)
              (fun o ho => hdep o (List.mem_cons_of_mem _ ho)) hx
            simp only [execSuccess, List.mem_append, List.mem_singleton]
              at this
            rcases this with h | h
            · exact h
            · exact absurd h.symm hne
          · rw [if_neg hok] at hx
            have := phase2_skip x d rest (execFailure op st)
              (by simp [execFailure, hd])
              (fun o ho => hdep o (List.mem_cons_of_mem _ ho)) hx
            simp only [execFailure, List.mem_append, List.mem_singleton]
              at this
            rcases this with h | h
            · exact h
            · exact absurd h.symm hne

/-- Unfolding of the skip test. -/
theorem shouldSkip_iff {op : RollbackOperation} {failed : List Nat} :
    shouldSkipOperation op failed = true ↔
      ∃ d ∈ op.dependsOn, d ∈ failed := by
  simp only [shouldSkipOperation, List.any_eq_true]
  constructor
  · rintro ⟨d, hd, hc⟩
    exact ⟨d, hd, contains_iff_mem.mp hc⟩
  · rintro ⟨d, hd, hc⟩
    exact ⟨d, hd, contains_iff_mem.mpr hc⟩

/-- Phase 1 under default settings invokes every critical operation
none of whose dependencies ends up failed. -/
theorem phase1_complete :
    ∀ (l : List RollbackOperation) (st st' : ExecSt),
      phase1 false l st = .ok st' →
      ∀ op ∈ l, op.critical = true →
        (∀ dep ∈ op.dependsOn, dep ∉ st'.failed) →
        op.id ∈ st'.trace
  | [], _, _, _, op, hop, _, _ => absurd hop (List.not_mem_nil op)
  | oph :: rest, st, st', heq, op, hop, hcrit, hdep => by
    simp only [phase1] at heq
    by_cases hc : oph.critical = false
    · rw [if_pos hc] at heq
      rcases List.mem_cons.mp hop with rfl | hop2
      · rw [hcrit] at hc; cases hc
      · exact phase1_complete rest st st' heq op hop2 hcrit hdep
    · rw [if_neg hc] at heq
      by_cases hs : shouldSkipOperation oph st.failed
      · rw [if_pos hs] at heq
        rcases List.mem_cons.mp hop with rfl | hop2
        · rcases shouldSkip_iff.mp hs with ⟨d, hdm, hdf⟩
          obtain ⟨_, ⟨f, hf, _⟩, _, _⟩ := phase1_shape false rest st
          rw [heq] at hf
          simp only [p1state] at hf
          exact absurd (by rw [hf]; exact List.mem_append_right f hdf)
            (hdep d hdm)
        · exact phase1_complete rest st st' heq op hop2 hcrit hdep
      · rw [if_neg hs] at heq
        by_cases hok : oph.actionOk
        · rw [if_pos hok] at heq
          rcases List.mem_cons.mp hop with rfl | hop2
          · obtain ⟨⟨t, ht, _⟩, _, _, _⟩ :=
              phase1_shape false rest (execSuccess op st)
            rw [heq] at ht
            simp only [p1state, execSuccess] at ht
            rw [ht]
            simp
          · exact phase1_complete rest _ st' heq op hop2 hcrit hdep
        · rw [if_neg hok, if_neg (fun h => Bool.false_ne_true h)] at heq
          rcases List.mem_cons.mp hop with rfl | hop2
          · obtain ⟨⟨t, ht, _⟩, _, _, _⟩ :=
              phase1_shape false rest (execFailure op st)
            rw [heq] at ht
            simp only [p1state, execFailure] at ht
            rw [ht]
            simp
          · exact phase1_complete rest _ st' heq op hop2 hcrit hdep

/-- Phase 2 invokes every non-critical operation none of whose
dependencies ends up failed, given that executed ids were invoked. -/
theorem phase2_complete :
    ∀ (l : List RollbackOperation) (st : ExecSt),
      (∀ i ∈ st.executed, i ∈ st.trace) →
      ∀ op ∈ l, op.critical = false →
        (∀ dep ∈ op.dependsOn, dep ∉ (phase2 l st).failed) →
        op.id ∈ (phase2 l st).trace
  | [], _, _, op, hop, _, _ => absurd hop (List.not_mem_nil op)
  | oph :: rest, st, hinv, op, hop, hcf, hdep => by
    simp only [phase2] at hdep ⊢
    by_cases hc : oph.critical
    · rw [if_pos hc] at hdep ⊢
      rcases List.mem_cons.mp hop with rfl | hop2
      · rw [hcf] at hc; cases hc
      · exact phase2_complete rest st hinv op hop2 hcf hdep
    · rw [if_neg hc] at hdep ⊢
      by_cases he2 : st.executed.contains oph.id
      · rw [if_pos he2] at hdep ⊢
        rcases List.mem_cons.mp hop with rfl | hop2
        · have hmem : op.id ∈ st.trace :=
            hinv op.id (contains_iff_mem.mp he2)
          obtain ⟨⟨t, ht, _⟩, _, _, _⟩ := phase2_shape rest st
          rw [ht]
          exact List.mem_append_left t hmem
        · exact phase2_complete rest st hinv op hop2 hcf hdep
      · rw [if_neg he2] at hdep ⊢
        by_cases hs : shouldSkipOperation oph st.failed
        · rw [if_pos hs] at hdep ⊢
          rcases List.mem_cons.mp hop with rfl | hop2
          · rcases shouldSkip_iff.mp hs with ⟨d, hdm, hdf⟩
            obtain ⟨_, ⟨f, hf⟩, _, _⟩ := phase2_shape rest st
            exact absurd (by rw [hf]; exact List.mem_append_right f hdf)
              (hdep d hdm)
          · exact phase2_complete rest st hinv op hop2 hcf hdep
        · rw [if_neg hs] at hdep ⊢
          by_cases hok : oph.actionOk
          · rw [if_pos hok] at hdep ⊢
            have hinv2 : ∀ i ∈ (execSuccess oph st).executed,
                i ∈ (execSuccess oph st).trace := by
              intro i hi
              simp only [execSuccess, List.mem_cons] at hi
              simp only [execSuccess, List.mem_append, List.mem_singleton]
              rcases hi with rfl | hi
              · exact Or.inr rfl
              · exact Or.inl (hinv i hi)
            rcases List.mem_cons.mp hop with rfl | hop2
            · obtain ⟨⟨t, ht, _⟩, _, _, _⟩ :=
                phase2_shape rest (execSuccess op st)
              rw [ht]
              simp [execSuccess]
            · exact phase2_complete rest _ hinv2 op hop2 hcf hdep
          · rw [if_neg hok] at hdep ⊢
            have hinv2 : ∀ i ∈ (execFailure oph st).executed,
                i ∈ (execFailure oph st).trace := by
              intro i hi
              simp only [execFailure] at hi
              simp only [execFailure, List.mem_append, List.mem_singleton]
              exact Or.inl (hinv i hi)
            rcases List.mem_cons.mp hop with rfl | hop2
            · obtain ⟨⟨t, ht, _⟩, _, _, _⟩ :=
                phase2_shape rest (execFailure op st)
              rw [ht]
              simp [execFailure]
            · exact phase2_complete rest _ hinv2 op hop2 hcf hdep

/-- Under default settings a phase-1-invoked operation whose action
fails has its failure recorded in the error list. -/
theorem phase1_fail_err :
    ∀ (l : List RollbackOperation) (st st' : ExecSt),
      phase1 false l st = .ok st' →
      ∀ i, (∀ op ∈ l, op.id = i → op.actionOk = false) →
        (i ∈ st.trace → ExecErr.actionFailed i ∈ st.errors) →
        i ∈ st'.trace → ExecErr.actionFailed i ∈ st'.errors
  | [], st, st', heq, i, _, hbase, hmem => by
    simp only [phase1, P1Res.ok.injEq] at heq
    exact heq ▸ hbase (heq ▸ hmem)
  | oph :: rest, st, st', heq, i, hfails, hbase, hmem => by
    simp only [phase1] at heq
    by_cases hc : oph.critical = false
    · rw [if_pos hc] at heq
      exact phase1_fail_err rest st st' heq i
        (fun o ho => hfails o (List.mem_cons_of_mem _ ho)) hbase hmem
    · rw [if_neg hc] at heq
      by_cases hs : shouldSkipOperation oph st.failed
      · rw [if_pos hs] at heq
        exact phase1_fail_err rest st st' heq i
          (fun o ho => hfails o (List.mem_cons_of_mem _ ho)) hbase hmem
      · rw [if_neg hs] at heq
        by_cases hok : oph.actionOk
        · rw [if_pos hok] at heq
          have hne : oph.id ≠ i := fun he => by
            rw [hfails oph (List.mem_cons_self _ _) he] at hok
            cases hok
          refine phase1_fail_err rest _ st' heq i
            (fun o ho => hfails o (List.mem_cons_of_mem _ ho)) ?_ hmem
          intro hti
          simp only [execSuccess, List.mem_append, List.mem_singleton]
            at hti
          rcases hti with hti | hti
          · exact hbase hti
          · exact absurd hti.symm hne
        · rw [if_neg hok, if_neg (fun h => Bool.false_ne_true h)] at heq
          refine phase1_fail_err rest _ st' heq i
            (fun o ho => hfails o (List.mem_cons_of_mem _ ho)) ?_ hmem
          intro hti
          simp only [execFailure, List.mem_append, List.mem_singleton]
            at hti
          rcases hti with hti | hti
          · exact List.mem_append_left _ (hbase hti)
          · rw [hti]
            exact List.mem_append_right _ (List.mem_singleton.mpr rfl)

/-- A phase-2-invoked operation whose action fails has its failure
recorded in the error list. -/
theorem phase2_fail_err :
    ∀ (l : List RollbackOperation) (st : ExecSt),
      ∀ i, (∀ op ∈ l, op.id = i → op.actionOk = false) →
        (i ∈ st.trace → ExecErr.actionFailed i ∈ st.errors) →
        i ∈ (phase2 l st).trace → ExecErr.actionFailed i ∈ (phase2 l st).errors
  | [], st, i, _, hbase, hmem => by
    simpa [phase2] using hbase (by simpa [phase2] using hmem)
  | oph :: rest, st, i, hfails, hbase, hmem => by
    simp only [phase2] at hmem ⊢
    by_cases hc : oph.critical
    · rw [if_pos hc] at hmem ⊢
      exact phase2_fail_err rest st i
        (fun o ho => hfails o (List.mem_cons_of_mem _ ho)) hbase hmem
    · rw [if_neg hc] at hmem ⊢
      by_cases he2 : st.executed.contains oph.id
      · rw [if_pos he2] at hmem ⊢
        exact phase2_fail_err rest st i
          (fun o ho => hfails o (List.mem_cons_of_mem _ ho)) hbase hmem
      · rw [if_neg he2] at hmem ⊢
        by_cases hs : shouldSkipOperation oph st.failed
        · rw [if_pos hs] at hmem ⊢
          exact phase2_fail_err rest st i
            (fun o ho => hfails o (List.mem_cons_of_mem _ ho)) hbase hmem
        · rw [if_neg hs] at hmem ⊢
          by_cases hok : oph.actionOk
          · rw [if_pos hok] at hmem ⊢
            have hne : oph.id ≠ i := fun he => by
              rw [hfails oph (List.mem_cons_self _ _) he] at hok
              cases hok
            refine phase2_fail_err rest _ i
              (fun o ho => hfails o (List.mem_cons_of_mem _ ho)) ?_ hmem
            intro hti
            simp only [execSuccess, List.mem_append, List.mem_singleton]
              at hti
            rcases hti with hti | hti
            · exact hbase hti
            · exact absurd hti.symm hne
          · rw [if_neg hok] at hmem ⊢
            refine phase2_fail_err rest _ i
              (fun o ho => hfails o (List.mem_cons_of_mem _ ho)) ?_ hmem
            intro hti
            simp only [execFailure, List.mem_append, List.mem_singleton]
              at hti
            rcases hti with hti | hti
            · exact List.mem_append_left _ (hbase hti)
            · rw [hti]
              exact List.mem_append_right _ (List.mem_singleton.mpr rfl)

/-- Phase 1 on a list whose critical members all succeed, from a state
with no failures: every critical member is invoked in list order. -/
theorem phase1_allok (es : Bool) :
    ∀ (l : List RollbackOperation) (st : ExecSt), st.failed = [] →
      (∀ op ∈ l, op.critical = true → op.actionOk = true) →
      phase1 es l st = .ok
        { st with
          executed := ((l.filter (fun op => op.critical)).map
            (fun op => op.id)).reverse ++ st.executed,
          trace := st.trace ++ (l.filter (fun op => op.critical)).map
            (fun op => op.id) }
  | [], st, _, _ => by simp [phase1]
  | op :: rest, st, hf, hok => by
    simp only [phase1]
    by_cases hc : op.critical = false
    · rw [if_pos hc]
      rw [phase1_allok es rest st hf
        (fun o ho => hok o (List.mem_cons_of_mem _ ho))]
      simp [List.filter_cons, hc]
    · rw [if_neg hc]
      have hcrit : op.critical = true := by
        cases hcv : op.critical
        · exact absurd hcv hc
        · rfl
      by_cases hs : shouldSkipOperation op st.failed
      · rw [hf, shouldSkip_nil] at hs
        cases hs
      · rw [if_neg hs, if_pos (hok op (List.mem_cons_self _ _) hcrit)]
        rw [phase1_allok es rest (execSuccess op st)
          (by simp [execSuccess, hf])
          (fun o ho => hok o (List.mem_cons_of_mem _ ho))]
        simp [execSuccess, List.filter_cons, hcrit, List.append_assoc]

/-- Phase 2 on a list with distinct ids whose non-critical members all
succeed and were not executed before, from a state with no failures:
every non-critical member is invoked in list order. -/
theorem phase2_allok :
    ∀ (l : List RollbackOperation) (st : ExecSt), st.failed = [] →
      (l.map (fun op => op.id)).Nodup →
      (∀ op ∈ l, op.critical = false → op.actionOk = true) →
      (∀ op ∈ l, op.critical = false → op.id ∉ st.executed) →
      phase2 l st =
        { st with
          executed := ((l.filter (fun op => !op.critical)).map
            (fun op => op.id)).reverse ++ st.executed,
          trace := st.trace ++ (l.filter (fun op => !op.critical)).map
            (fun op => op.id) }
  | [], st, _, _, _, _ => by simp [phase2]
  | op :: rest, st, hf, hnd, hok, hnx => by
    simp only [List.map_cons, List.nodup_cons] at hnd
    simp only [phase2]
    by_cases hc : op.critical
    · rw [if_pos hc]
      rw [phase2_allok rest st hf hnd.2
        (fun o ho => hok o (List.mem_cons_of_mem _ ho))
        (fun o ho => hnx o (List.mem_cons_of_mem _ ho))]
      simp [List.filter_cons, hc]
    · rw [if_neg hc]
      have hcf : op.critical = false := by
        cases hcv : op.critical
        · rfl
        · exact absurd hcv hc
      have hnc : ¬ st.executed.contains op.id := fun hcont =>
        hnx op (List.mem_cons_self _ _) hcf (contains_iff_mem.mp hcont)
      rw [if_neg hnc]
      by_cases hs : shouldSkipOperation op st.failed
      · rw [hf, shouldSkip_nil] at hs
        cases hs
      · rw [if_neg hs, if_pos (hok op (List.mem_cons_self _ _) hcf)]
        rw [phase2_allok rest (execSuccess op st)
          (by simp [execSuccess, hf]) hnd.2
          (fun o ho => hok o (List.mem_cons_of_mem _ ho))
          (fun o ho hocf => by
            simp only [execSuccess, List.mem_cons, not_or]
            refine ⟨fun he => hnd.1 ?_, hnx o (List.mem_cons_of_mem _ ho) hocf⟩
            rw [← he]
            exact List.mem_map_of_mem _ ho)]
        simp [execSuccess, List.filter_cons, hcf, List.append_assoc]

/-- Under explicit fail-fast, a failing critical head aborts at once. -/
theorem phase1_abort_head (opf : RollbackOperation)
    (l2 : List RollbackOperation) (st : ExecSt) (hf : st.failed = [])
    (hcrit : opf.critical = true) (hfail : opf.actionOk = false) :
    phase1 true (opf :: l2) st = .abort opf.id (abortState opf st) := by
  simp only [phase1]
  rw [if_neg (fun h => by rw [hcrit] at h; cases h)]
  rw [if_neg (fun h => by rw [hf, shouldSkip_nil] at h; cases h)]
  rw [if_neg (fun h => by rw [hfail] at h; cases h)]
  simp

/-- Claim C1 (confirmed): with `SetFailFast(true)` called before
`Execute`, the first failing critical action aborts immediately: the
ledger is cleared, the distinguished critical-failure error is
returned, every invoked operation was critical (phase 2 never starts),
and no operation appended before the failing one is ever invoked. -/
theorem c1_explicit_failfast_abort (rm : RollbackManager)
    (pre post : List RollbackOperation) (opf : RollbackOperation)
    (hff : rm.failFast = true) (hes : rm.failFastExplicitlySet = true)
    (hsplit : rm.operations = pre ++ opf :: post)
    (hcrit : opf.critical = true) (hfail : opf.actionOk = false)
    (hpost : ∀ op ∈ post, op.critical = true → op.actionOk = true)
    (hnodup : (rm.operations.map (fun op => op.id)).Nodup) :
    (Execute rm).result = some (RollbackError.criticalFailure opf.id) ∧
    (Execute rm).final.operations = [] ∧
    (Execute rm).final.dependencies = [] ∧
    (Execute rm).st.trace =
      ((post.reverse.filter (fun op => op.critical)).map (fun op => op.id))
        ++ [opf.id] ∧
    (∀ op ∈ pre, op.id ∉ (Execute rm).st.trace) ∧
    (∀ i ∈ (Execute rm).st.trace,
      ∃ op, op ∈ rm.operations ∧ op.id = i ∧ op.critical = true) := by
  have hne : rm.operations.isEmpty = false := by
    rw [hsplit]; cases pre <;> rfl
  have hrev : rm.operations.reverse = post.reverse ++ opf :: pre.reverse := by
    rw [hsplit]; simp
  have hmid := phase1_allok true post.reverse (initSt rm) rfl
    (fun o ho => hpost o (List.mem_reverse.mp ho))
  have hphase : phase1 rm.failFastExplicitlySet rm.operations.reverse
      (initSt rm) =
      .abort opf.id (abortState opf
        { initSt rm with
          executed := ((post.reverse.filter (fun op => op.critical)).map
            (fun op => op.id)).reverse ++ (initSt rm).executed,
          trace := (initSt rm).trace ++ (post.reverse.filter
            (fun op => op.critical)).map (fun op => op.id) }) := by
    rw [hes, hrev,
      phase1_append true post.reverse (opf :: pre.reverse) (initSt rm),
      hmid]
    exact phase1_abort_head opf pre.reverse _ rfl hcrit hfail
  have hexec : Execute rm =
      { result := some (RollbackError.criticalFailure opf.id),
        final := { rm with operations := [], dependencies := [],
                           lastError := some (ExecErr.actionFailed opf.id) },
        st := abortState opf
          { initSt rm with
            executed := ((post.reverse.filter (fun op => op.critical)).map
              (fun op => op.id)).reverse ++ (initSt rm).executed,
            trace := (initSt rm).trace ++ (post.reverse.filter
              (fun op => op.critical)).map (fun op => op.id) } } := by
    simp only [Execute, hne, Bool.false_eq_true, if_false, hff, if_true,
      hphase, abortState]
  rw [hexec]
  have htrace : (abortState opf
      { initSt rm with
        executed := ((post.reverse.filter (fun op => op.critical)).map
          (fun op => op.id)).reverse ++ (initSt rm).executed,
        trace := (initSt rm).trace ++ (post.reverse.filter
          (fun op => op.critical)).map (fun op => op.id) }).trace =
      ((post.reverse.filter (fun op => op.critical)).map (fun op => op.id))
        ++ [opf.id] := by
    simp [abortState, initSt]
  refine ⟨rfl, rfl, rfl, htrace, ?_, ?_⟩
  · intro op hop hmem
    rw [htrace] at hmem
    have hdisj : (pre.map (fun op => op.id)).Disjoint
        ((opf :: post).map (fun op => op.id)) := by
      rw [hsplit] at hnodup
      simp only [List.map_append] at hnodup
      exact List.disjoint_of_nodup_append hnodup
    have hidpre : op.id ∈ pre.map (fun op => op.id) :=
      List.mem_map_of_mem _ hop
    rcases List.mem_append.mp hmem with hmem | hmem
    · rcases List.mem_map.mp hmem with ⟨op', hop', hid⟩
      have hop'post : op' ∈ post :=
        List.mem_reverse.mp (List.mem_filter.mp hop').1
      exact hdisj hidpre (by
        simp only [List.map_cons, List.mem_cons]
        exact Or.inr (hid ▸ List.mem_map_of_mem _ hop'post))
    · rcases List.mem_singleton.mp hmem with hmem
      exact hdisj hidpre (by
        simp only [List.map_cons, List.mem_cons]
        exact Or.inl hmem)
  · intro i hi
    rw [htrace] at hi
    rcases List.mem_append.mp hi with hi | hi
    · rcases List.mem_map.mp hi with ⟨op', hop', hid⟩
      have hmf := List.mem_filter.mp hop'
      refine ⟨op', ?_, hid, by simpa using hmf.2⟩
      rw [hsplit]
      exact List.mem_append_right _
        (List.mem_cons_of_mem _ (List.mem_reverse.mp hmf.1))
    · rcases List.mem_singleton.mp hi with rfl
      refine ⟨opf, ?_, rfl, hcrit⟩
      rw [hsplit]
      exact List.mem_append_right _ (List.mem_cons_self _ _)

/-- Witness for C1 at a concrete three-operation ledger with
`SetFailFast(true)`: the failing critical op aborts after the later
critical op ran, the earlier op is never invoked. -/
theorem c1_witness :
    (Execute (mgrOf [cexOp 0 false true [], cexOp 1 true false [],
        cexOp 2 true true []] true true)).result =
      some (RollbackError.criticalFailure 1) ∧
    (Execute (mgrOf [cexOp 0 false true [], cexOp 1 true false [],
        cexOp 2 true true []] true true)).st.trace =
      (([cexOp 2 true true []].reverse.filter (fun op => op.critical)).map
        (fun op => op.id)) ++ [1] := by
  have h := c1_explicit_failfast_abort
    (mgrOf [cexOp 0 false true [], cexOp 1 true false [],
      cexOp 2 true true []] true true)
    [cexOp 0 false true []] [cexOp 2 true true []] (cexOp 1 true false [])
    rfl rfl rfl rfl rfl (by decide) (by decide)
  exact ⟨h.1, h.2.2.2.1⟩

/-- Claim C4, amended (corrected): a successful default-mode `Execute`
invokes the critical operations in reverse insertion order and then the
non-critical operations in reverse insertion order (in particular
`[C, B, A]` when all three operations carry the same critical flag). -/
theorem c4_default_success_order (rm : RollbackManager)
    (hff : rm.failFast = true) (hes : rm.failFastExplicitlySet = false)
    (hnodup : (rm.operations.map (fun op => op.id)).Nodup)
    (hok : ∀ op ∈ rm.operations, op.actionOk = true) :
    (Execute rm).result = none ∧
    (Execute rm).st.trace =
      ((rm.operations.reverse.filter (fun op => op.critical)).map
        (fun op => op.id)) ++
      ((rm.operations.reverse.filter (fun op => !op.critical)).map
        (fun op => op.id)) := by
  by_cases hemp : rm.operations.isEmpty
  · have hops : rm.operations = [] := List.isEmpty_iff.mp hemp
    have hexec : Execute rm =
        { result := none, final := rm, st := initSt rm } := by
      simp [Execute, hemp]
    rw [hexec, hops]
    exact ⟨rfl, rfl⟩
  · have hmid := phase1_allok false rm.operations.reverse (initSt rm) rfl
      (fun o ho _ => hok o (List.mem_reverse.mp ho))
    have hndrev : (rm.operations.reverse.map (fun op => op.id)).Nodup := by
      rw [List.map_reverse]
      exact List.nodup_reverse.mpr hnodup
    have hinj := List.inj_on_of_nodup_map hnodup
    have hnx : ∀ op ∈ rm.operations.reverse, op.critical = false →
        op.id ∉ (({ initSt rm with
          executed := ((rm.operations.reverse.filter
            (fun op => op.critical)).map (fun op => op.id)).reverse
              ++ (initSt rm).executed,
          trace := (initSt rm).trace ++ (rm.operations.reverse.filter
            (fun op => op.critical)).map (fun op => op.id) } :
          ExecSt)).executed := by
      intro op hop hcf hmem
      simp only [initSt, List.append_nil, List.mem_reverse] at hmem
      rcases List.mem_map.mp hmem with ⟨op', hop', hid⟩
      have hmf := List.mem_filter.mp hop'
      have : op' = op :=
        hinj (List.mem_reverse.mp hmf.1) (List.mem_reverse.mp hop) hid
      rw [this] at hmf
      rw [hcf] at hmf
      simpa using hmf.2
    have hph2 := phase2_allok rm.operations.reverse _ rfl hndrev
      (fun o ho _ => hok o (List.mem_reverse.mp ho)) hnx
    have hexec : Execute rm = finishExec rm (phase2 rm.operations.reverse
        { initSt rm with
          executed := ((rm.operations.reverse.filter
            (fun op => op.critical)).map (fun op => op.id)).reverse
              ++ (initSt rm).executed,
          trace := (initSt rm).trace ++ (rm.operations.reverse.filter
            (fun op => op.critical)).map (fun op => op.id) }) := by
      simp only [Execute, hemp, Bool.false_eq_true, if_false, hff, if_true,
        hes, hmid, Bool.not_false, Bool.true_or]
    rw [hexec, hph2]
    exact ⟨rfl, by simp [finishExec, initSt]⟩

/-- Witness for C4: three all-critical successful operations are
invoked in exactly the order `[2, 1, 0]`. -/
theorem c4_witness :
    (Execute (mgrOf [cexOp 0 true true [], cexOp 1 true true [],
        cexOp 2 true true []] true false)).result = none ∧
    (Execute (mgrOf [cexOp 0 true true [], cexOp 1 true true [],
        cexOp 2 true true []] true false)).st.trace = [2, 1, 0] := by
  have h := c4_default_success_order
    (mgrOf [cexOp 0 true true [], cexOp 1 true true [],
      cexOp 2 true true []] true false)
    rfl rfl (by decide) (by decide)
  exact ⟨h.1, h.2.trans (by decide)⟩

/-- Counterexample for C4 as stated: with flags `[non-critical,
critical, non-critical]` a successful default-mode `Execute` invokes
`[B, C, A]` (ids `[1, 2, 0]`), not `[C, B, A]` (`[2, 1, 0]`). -/
theorem c4_counterexample :
    (Execute (mgrOf [cexOp 0 false true [], cexOp 1 true true [],
        cexOp 2 false true []] true false)).result = none ∧
    (Execute (mgrOf [cexOp 0 false true [], cexOp 1 true true [],
        cexOp 2 false true []] true false)).st.trace = [1, 2, 0] ∧
    ([1, 2, 0] : List Nat) ≠ [2, 1, 0] := by decide

/-- Under default settings phase 1 never aborts. -/
theorem phase1_false_ok :
    ∀ (l : List RollbackOperation) (st : ExecSt),
      ∃ st', phase1 false l st = .ok st'
  | [], st => ⟨st, rfl⟩
  | op :: rest, st => by
    simp only [phase1]
    by_cases hc : op.critical = false
    · rw [if_pos hc]; exact phase1_false_ok rest st
    · rw [if_neg hc]
      by_cases hs : shouldSkipOperation op st.failed
      · rw [if_pos hs]; exact phase1_false_ok rest st
      · rw [if_neg hs]
        by_cases hok : op.actionOk
        · rw [if_pos hok]; exact phase1_false_ok rest (execSuccess op st)
        · rw [if_neg hok, if_neg (fun h => Bool.false_ne_true h)]
          exact phase1_false_ok rest (execFailure op st)

/-- Phase 1 keeps every executed id in the trace. -/
theorem phase1_execsub (es : Bool) :
    ∀ (l : List RollbackOperation) (st st' : ExecSt),
      phase1 es l st = .ok st' →
      (∀ i ∈ st.executed, i ∈ st.trace) →
      ∀ i ∈ st'.executed, i ∈ st'.trace
  | [], st, st', heq, hsub => by
    simp only [phase1, P1Res.ok.injEq] at heq
    exact heq ▸ hsub
  | op :: rest, st, st', heq, hsub => by
    simp only [phase1] at heq
    by_cases hc : op.critical = false
    · rw [if_pos hc] at heq
      exact phase1_execsub es rest st st' heq hsub
    · rw [if_neg hc] at heq
      by_cases hs : shouldSkipOperation op st.failed
      · rw [if_pos hs] at heq
        exact phase1_execsub es rest st st' heq hsub
      · rw [if_neg hs] at heq
        by_cases hok : op.actionOk
        · rw [if_pos hok] at heq
          refine phase1_execsub es rest _ st' heq ?_
          intro i hi
          simp only [execSuccess, List.mem_cons] at hi
          simp only [execSuccess, List.mem_append, List.mem_singleton]
          rcases hi with rfl | hi
          · exact Or.inr rfl
          · exact Or.inl (hsub i hi)
        · rw [if_neg hok] at heq
          by_cases hes : es
          · rw [if_pos hes] at heq
            cases heq
          · rw [if_neg hes] at heq
            refine phase1_execsub es rest _ st' heq ?_
            intro i hi
            simp only [execFailure] at hi
            simp only [execFailure, List.mem_append, List.mem_singleton]
            exact Or.inl (hsub i hi)

/-- Claim C2, amended (corrected): under default settings a critical
failure does not stop execution: every operation none of whose declared
dependencies failed during the run is still invoked (criticals in
phase 1, non-criticals in phase 2), every invoked failing action is
recorded, and `Execute` returns the aggregate error. -/
theorem c2_default_mode_resilience (rm : RollbackManager)
    (opf : RollbackOperation)
    (hff : rm.failFast = true) (hes : rm.failFastExplicitlySet = false)
    (hnodup : (rm.operations.map (fun op => op.id)).Nodup)
    (hmem : opf ∈ rm.operations) (_hcrit : opf.critical = true)
    (hfl : opf.actionOk = false)
    (hinv : opf.id ∈ (Execute rm).st.trace) :
    (Execute rm).result =
      some (RollbackError.aggregate (Execute rm).st.errors) ∧
    (∀ op ∈ rm.operations,
      (∀ dep ∈ op.dependsOn, dep ∉ (Execute rm).st.failed) →
      op.id ∈ (Execute rm).st.trace) ∧
    (∀ op ∈ rm.operations, op.id ∈ (Execute rm).st.trace →
      op.actionOk = false →
      ExecErr.actionFailed op.id ∈ (Execute rm).st.errors) := by
  have hne : rm.operations.isEmpty = false := by
    cases hops : rm.operations
    · rw [hops] at hmem; cases hmem
    · rfl
  obtain ⟨st1, hp⟩ := phase1_false_ok rm.operations.reverse (initSt rm)
  have hinj := List.inj_on_of_nodup_map hnodup
  have hexec : Execute rm =
      finishExec rm (phase2 rm.operations.reverse st1) := by
    simp only [Execute, hne, Bool.false_eq_true, if_false, hff, if_true,
      hes, hp, Bool.not_false, Bool.true_or, if_true]
  have hsub1 : ∀ i ∈ st1.executed, i ∈ st1.trace :=
    phase1_execsub false _ _ _ hp (fun i hi => by simp [initSt] at hi)
  have hfailmem : ∀ op, op ∈ rm.operations → op.actionOk = false →
      op.id ∈ (phase2 rm.operations.reverse st1).trace →
      ExecErr.actionFailed op.id ∈
        (phase2 rm.operations.reverse st1).errors := by
    intro op hop hofl hot
    have hfails : ∀ op' ∈ rm.operations.reverse, op'.id = op.id →
        op'.actionOk = false := by
      intro op' hop' hid
      have : op' = op := hinj (List.mem_reverse.mp hop') hop hid
      rw [this]
      exact hofl
    refine phase2_fail_err rm.operations.reverse st1 op.id hfails ?_ hot
    intro h1
    exact phase1_fail_err rm.operations.reverse (initSt rm) st1 hp op.id
      hfails (fun h => by simp [initSt] at h) h1
  rw [hexec] at hinv ⊢
  have herr : ExecErr.actionFailed opf.id ∈
      (phase2 rm.operations.reverse st1).errors :=
    hfailmem opf hmem hfl hinv
  refine ⟨?_, ?_, ?_⟩
  · have hene : ¬ (phase2 rm.operations.reverse st1).errors.isEmpty = true
      := by
      intro h
      rw [List.isEmpty_iff.mp h] at herr
      cases herr
    simp [finishExec, hene]
  · intro op hop hdep
    obtain ⟨_, ⟨f2, hf2⟩, _, _⟩ := phase2_shape rm.operations.reverse st1
    obtain ⟨⟨t2, ht2, _⟩, _, _, _⟩ := phase2_shape rm.operations.reverse st1
    cases hcv : op.critical
    · exact phase2_complete rm.operations.reverse st1 hsub1 op
        (List.mem_reverse.mpr hop) hcv hdep
    · have h1 : op.id ∈ st1.trace := by
        refine phase1_complete rm.operations.reverse (initSt rm) st1 hp op
          (List.mem_reverse.mpr hop) hcv ?_
        intro dep hdm hdf
        refine hdep dep hdm ?_
        simp only [finishExec]
        rw [hf2]
        exact List.mem_append_right f2 hdf
      simp only [finishExec]
      rw [ht2]
      exact List.mem_append_left t2 h1
  · intro op hop hot hofl
    exact hfailmem op hop hofl hot

/-- Witness for C2 at the spec's concrete scenario (critical worktree
removal fails, non-critical branch deletion still runs) extended with a
dependent pair. -/
theorem c2_witness :
    (Execute (mgrOf [cexOp 0 true false [], cexOp 1 false true []]
        true false)).result =
      some (RollbackError.aggregate
        (Execute (mgrOf [cexOp 0 true false [], cexOp 1 false true []]
          true false)).st.errors) ∧
    1 ∈ (Execute (mgrOf [cexOp 0 true false [], cexOp 1 false true []]
        true false)).st.trace := by
  have h := c2_default_mode_resilience
    (mgrOf [cexOp 0 true false [], cexOp 1 false true []] true false)
    (cexOp 0 true false []) rfl rfl (by decide) (by decide) rfl rfl
    (by decide)
  refine ⟨h.1, ?_⟩
  have := h.2.1 (cexOp 1 false true []) (by decide) (by decide)
  exact this

/-- Counterexample for C2 as stated: ledger `[A, B, C]` with `A`
non-critical depending on `B`, `B` non-critical failing, `C` critical
failing; `B`'s failure happens in phase 2, not phase 1, yet `A` is
skipped — so "phase 2 runs every non-critical operation whose declared
dependencies did not fail in phase 1" is false: `A`'s action is never
invoked although its only dependency did not fail in phase 1. -/
theorem c2_counterexample :
    (Execute (mgrOf [cexOp 0 false true [1], cexOp 1 false false [],
        cexOp 2 true false []] true false)).st.trace = [2, 1] ∧
    (0 : Nat) ∉ (Execute (mgrOf [cexOp 0 false true [1],
        cexOp 1 false false [], cexOp 2 true false []] true false)).st.trace
    := by decide

/-- Unfolding of the dependencies-attempted test. -/
theorem canExecute_iff {op : RollbackOperation} {st : ExecSt} :
    canExecute op st = true ↔
      ∀ d ∈ op.dependsOn, d ∈ st.executed ∨ d ∈ st.failed := by
  simp only [canExecute, List.all_eq_true, Bool.or_eq_true]
  constructor
  · intro h d hd
    rcases h d hd with h1 | h1
    · exact Or.inl (contains_iff_mem.mp h1)
    · exact Or.inr (contains_iff_mem.mp h1)
  · intro h d hd
    rcases h d hd with h1 | h1
    · exact Or.inl (contains_iff_mem.mpr h1)
    · exact Or.inr (contains_iff_mem.mpr h1)

/-- A trace-order fact survives appending to the trace. -/
theorem IdBefore_append {i j : Nat} {t1 : List Nat} (t2 : List Nat)
    (h : IdBefore i j t1) : IdBefore i j (t1 ++ t2) := by
  rcases h with ⟨a, b, hab, hm⟩
  exact ⟨a, b ++ t2, by rw [hab]; simp, hm⟩

/-- Field characterization of the no-progress marking. -/
theorem markDep_fields :
    ∀ (l : List RollbackOperation) (st : ExecSt),
      (markDepConstraint l st).trace = st.trace ∧
      (markDepConstraint l st).executed = st.executed ∧
      (markDepConstraint l st).failed =
        (l.map (fun op => op.id)).reverse ++ st.failed ∧
      (markDepConstraint l st).errors =
        st.errors ++ l.map (fun op => ExecErr.depConstraint op.id)
  | [], st => ⟨rfl, rfl, by simp [markDepConstraint],
      by simp [markDepConstraint]⟩
  | op :: rest, st => by
    obtain ⟨h1, h2, h3, h4⟩ := markDep_fields rest
      { st with failed := op.id :: st.failed,
                errors := st.errors ++ [ExecErr.depConstraint op.id],
                lastError := some (ExecErr.depConstraint op.id) }
    refine ⟨h1, h2, ?_, ?_⟩
    · rw [markDepConstraint, h3]
      simp
    · rw [markDepConstraint, h4]
      simp

/-- The kept remainder of a pass is a sublist of the input. -/
theorem modeCPass_subset :
    ∀ (l : List RollbackOperation) (st : ExecSt),
      ∀ op ∈ (modeCPass l st).1, op ∈ l
  | [], _, op, hop => by simp [modeCPass] at hop
  | oph :: rest, st, op, hop => by
    simp only [modeCPass] at hop
    by_cases hs : shouldSkipOperation oph st.failed
    · rw [if_pos hs] at hop
      exact List.mem_cons_of_mem _ (modeCPass_subset rest st op hop)
    · rw [if_neg hs] at hop
      by_cases hce : canExecute oph st
      · rw [if_pos hce] at hop
        simp only [] at hop
        exact List.mem_cons_of_mem _ (modeCPass_subset rest _ op hop)
      · rw [if_neg hce] at hop
        simp only [List.mem_cons] at hop
        rcases hop with rfl | hop
        · exact List.mem_cons_self _ _
        · exact List.mem_cons_of_mem _ (modeCPass_subset rest st op hop)

/-- A pass that reports no progress leaves the state untouched. -/
theorem modeCPass_noprog :
    ∀ (l : List RollbackOperation) (st : ExecSt),
      (modeCPass l st).2.2 = false → (modeCPass l st).2.1 = st
  | [], _, _ => rfl
  | oph :: rest, st, hp => by
    simp only [modeCPass] at hp ⊢
    by_cases hs : shouldSkipOperation oph st.failed
    · rw [if_pos hs] at hp ⊢
      exact modeCPass_noprog rest st hp
    · rw [if_neg hs] at hp ⊢
      by_cases hce : canExecute oph st
      · rw [if_pos hce] at hp
        cases hp
      · rw [if_neg hce] at hp ⊢
        exact modeCPass_noprog rest st hp

/-- Shape of one pass: the trace extends with ids of input members;
failed ids stem from members with failing actions, executed ids from
members with succeeding actions; errors only grow. -/
theorem modeCPass_shape :
    ∀ (l : List RollbackOperation) (st : ExecSt),
      (∃ t, (modeCPass l st).2.1.trace = st.trace ++ t ∧
        ∀ i ∈ t, ∃ op, op ∈ l ∧ op.id = i) ∧
      (∃ f, (modeCPass l st).2.1.failed = f ++ st.failed ∧
        ∀ i ∈ f, ∃ op, op ∈ l ∧ op.id = i ∧ op.actionOk = false) ∧
      (∃ x, (modeCPass l st).2.1.executed = x ++ st.executed ∧
        ∀ i ∈ x, ∃ op, op ∈ l ∧ op.id = i ∧ op.actionOk = true) ∧
      (∃ e, (modeCPass l st).2.1.errors = st.errors ++ e)
  | [], st => ⟨⟨[], by simp [modeCPass], by simp⟩,
      ⟨[], by simp [modeCPass], by simp⟩,
      ⟨[], by simp [modeCPass], by simp⟩, ⟨[], by simp [modeCPass]⟩⟩
  | oph :: rest, st => by
    simp only [modeCPass]
    by_cases hs : shouldSkipOperation oph st.failed
    · rw [if_pos hs]
      obtain ⟨⟨t, ht, htm⟩, ⟨f, hf, hfm⟩, ⟨x, hx, hxm⟩, ⟨e, he⟩⟩ :=
        modeCPass_shape rest st
      exact ⟨⟨t, ht, fun i hi => (htm i hi).imp
          (fun o ho => ⟨List.mem_cons_of_mem _ ho.1, ho.2⟩)⟩,
        ⟨f, hf, fun i hi => (hfm i hi).imp
          (fun o ho => ⟨List.mem_cons_of_mem _ ho.1, ho.2⟩)⟩,
        ⟨x, hx, fun i hi => (hxm i hi).imp
          (fun o ho => ⟨List.mem_cons_of_mem _ ho.1, ho.2⟩)⟩, ⟨e, he⟩⟩
    · rw [if_neg hs]
      by_cases hce : canExecute oph st
      · rw [if_pos hce]
        by_cases hok : oph.actionOk
        · simp only [hok, if_true]
          obtain ⟨⟨t, ht, htm⟩, ⟨f, hf, hfm⟩, ⟨x, hx, hxm⟩, ⟨e, he⟩⟩ :=
            modeCPass_shape rest (execSuccess oph st)
          refine ⟨⟨oph.id :: t, ?_, ?_⟩, ⟨f, ?_, ?_⟩,
            ⟨x ++ [oph.id], ?_, ?_⟩, ⟨e, ?_⟩⟩
          · rw [ht]; simp [execSuccess]
          · intro i hi
            rcases List.mem_cons.mp hi with hi | hi
            · exact ⟨oph, List.mem_cons_self _ _, hi.symm⟩
            · exact (htm i hi).imp
                (fun o ho => ⟨List.mem_cons_of_mem _ ho.1, ho.2⟩)
          · rw [hf]; simp [execSuccess]
          · intro i hi
            exact (hfm i hi).imp
              (fun o ho => ⟨List.mem_cons_of_mem _ ho.1, ho.2⟩)
          · rw [hx]; simp [execSuccess]
          · intro i hi
            rcases List.mem_append.mp hi with hi | hi
            · exact (hxm i hi).imp
                (fun o ho => ⟨List.mem_cons_of_mem _ ho.1, ho.2⟩)
            · rcases List.mem_singleton.mp hi with rfl
              exact ⟨oph, List.mem_cons_self _ _, rfl, hok⟩
          · rw [he]; simp [execSuccess]
        · simp only [hok, if_false, Bool.false_eq_true]
          obtain ⟨⟨t, ht, htm⟩, ⟨f, hf, hfm⟩, ⟨x, hx, hxm⟩, ⟨e, he⟩⟩ :=
            modeCPass_shape rest (execFailure oph st)
          have hokf : oph.actionOk = false := by
            cases hov : oph.actionOk
            · rfl
            · exact absurd hov hok
          refine ⟨⟨oph.id :: t, ?_, ?_⟩, ⟨f ++ [oph.id], ?_, ?_⟩,
            ⟨x, ?_, ?_⟩, ⟨ExecErr.actionFailed oph.id :: e, ?_⟩⟩
          · rw [ht]; simp [execFailure]
          · intro i hi
            rcases List.mem_cons.mp hi with hi | hi
            · exact ⟨oph, List.mem_cons_self _ _, hi.symm⟩
            · exact (htm i hi).imp
                (fun o ho => ⟨List.mem_cons_of_mem _ ho.1, ho.2⟩)
          · rw [hf]; simp [execFailure]
          · intro i hi
            rcases List.mem_append.mp hi with hi | hi
            · exact (hfm i hi).imp
                (fun o ho => ⟨List.mem_cons_of_mem _ ho.1, ho.2⟩)
            · rcases List.mem_singleton.mp hi with rfl
              exact ⟨oph, List.mem_cons_self _ _, rfl, hokf⟩
          · rw [hx]; simp [execFailure]
          · intro i hi
            exact (hxm i hi).imp
              (fun o ho => ⟨List.mem_cons_of_mem _ ho.1, ho.2⟩)
          · rw [he]; simp [execFailure]
      · rw [if_neg hce]
        obtain ⟨⟨t, ht, htm⟩, ⟨f, hf, hfm⟩, ⟨x, hx, hxm⟩, ⟨e, he⟩⟩ :=
          modeCPass_shape rest st
        exact ⟨⟨t, ht, fun i hi => (htm i hi).imp
            (fun o ho => ⟨List.mem_cons_of_mem _ ho.1, ho.2⟩)⟩,
          ⟨f, hf, fun i hi => (hfm i hi).imp
            (fun o ho => ⟨List.mem_cons_of_mem _ ho.1, ho.2⟩)⟩,
          ⟨x, hx, fun i hi => (hxm i hi).imp
            (fun o ho => ⟨List.mem_cons_of_mem _ ho.1, ho.2⟩)⟩, ⟨e, he⟩⟩

/-- Once `d` is failed, every operation with id `x` depending on `d` is
dropped by the pass (neither kept nor invoked). -/
theorem modeCPass_skipdrop (x d : Nat) :
    ∀ (l : List RollbackOperation) (st : ExecSt), d ∈ st.failed →
      (∀ op ∈ l, op.id = x → d ∈ op.dependsOn) →
      ∀ op ∈ (modeCPass l st).1, op.id ≠ x
  | [], _, _, _, op, hop => by simp [modeCPass] at hop
  | oph :: rest, st, hd, hdep, op, hop => by
    simp only [modeCPass] at hop
    by_cases hs : shouldSkipOperation oph st.failed
    · rw [if_pos hs] at hop
      exact modeCPass_skipdrop x d rest st hd
        (fun o ho => hdep o (List.mem_cons_of_mem _ ho)) op hop
    · rw [if_neg hs] at hop
      by_cases hce : canExecute oph st
      · rw [if_pos hce] at hop
        simp only [] at hop
        have hd1 : d ∈ (if oph.actionOk then execSuccess oph st
            else execFailure oph st).failed := by
          by_cases hok : oph.actionOk
          · simpa [hok, execSuccess] using hd
          · simp [hok, execFailure, hd]
        exact modeCPass_skipdrop x d rest _ hd1
          (fun o ho => hdep o (List.mem_cons_of_mem _ ho)) op hop
      · rw [if_neg hce] at hop
        rcases List.mem_cons.mp hop with rfl | hop
        · intro hid
          exact hs (shouldSkip_of_mem
            (hdep op (List.mem_cons_self _ _) hid) hd)
        · exact modeCPass_skipdrop x d rest st hd
            (fun o ho => hdep o (List.mem_cons_of_mem _ ho)) op hop

/-- Pass-level invariant for dependency skipping: if every op with id
`x` depends on `d`, every op with id `d` fails, and `d` was never
executed, then the pass never invokes `x`, never marks `x` failed, `d`
stays un-executed, and `d` failed as soon as it was invoked. -/
theorem modeCPass_c5inv (x d : Nat) :
    ∀ (l : List RollbackOperation) (st : ExecSt),
      (∀ op ∈ l, op.id = x → d ∈ op.dependsOn) →
      (∀ op ∈ l, op.id = d → op.actionOk = false) →
      d ∉ st.executed →
      d ∉ (modeCPass l st).2.1.executed ∧
      (x ∈ (modeCPass l st).2.1.trace → x ∈ st.trace) ∧
      (x ∈ (modeCPass l st).2.1.failed → x ∈ st.failed) ∧
      ((d ∈ st.trace → d ∈ st.failed) →
        d ∈ (modeCPass l st).2.1.trace → d ∈ (modeCPass l st).2.1.failed)
  | [], st, _, _, hde => by
    exact ⟨by simpa [modeCPass] using hde,
      by simp [modeCPass], by simp [modeCPass],
      fun hjd => by simpa [modeCPass] using hjd⟩
  | oph :: rest, st, hdep, hfl, hde => by
    simp only [modeCPass]
    by_cases hs : shouldSkipOperation oph st.failed
    · rw [if_pos hs]
      exact modeCPass_c5inv x d rest st
        (fun o ho => hdep o (List.mem_cons_of_mem _ ho))
        (fun o ho => hfl o (List.mem_cons_of_mem _ ho)) hde
    · rw [if_neg hs]
      by_cases hce : canExecute oph st
      · rw [if_pos hce]
        have hnex : oph.id ≠ x := by
          intro hid
          rcases canExecute_iff.mp hce d
            (hdep oph (List.mem_cons_self _ _) hid) with h1 | h1
          · exact hde h1
          · exact absurd (shouldSkip_of_mem
              (hdep oph (List.mem_cons_self _ _) hid) h1) (by simp [hs])
        by_cases hok : oph.actionOk
        · have hned : oph.id ≠ d := by
            intro hid
            rw [hfl oph (List.mem_cons_self _ _) hid] at hok
            cases hok
          simp only [hok, if_true]
          obtain ⟨ih1, ih2, ih3, ih4⟩ := modeCPass_c5inv x d rest
            (execSuccess oph st)
            (fun o ho => hdep o (List.mem_cons_of_mem _ ho))
            (fun o ho => hfl o (List.mem_cons_of_mem _ ho))
            (by
              simp only [execSuccess, List.mem_cons, not_or]
              exact ⟨fun he => hned he.symm, hde⟩)
          refine ⟨ih1, ?_, ?_, ?_⟩
          · intro hx
            have := ih2 hx
            simp only [execSuccess, List.mem_append, List.mem_singleton]
              at this
            rcases this with h | h
            · exact h
            · exact absurd h.symm hnex
          · intro hx
            have := ih3 hx
            simpa [execSuccess] using this
          · intro hjd hd2
            refine ih4 ?_ hd2
            intro hd3
            simp only [execSuccess, List.mem_append, List.mem_singleton]
              at hd3
            rcases hd3 with h | h
            · simpa [execSuccess] using hjd h
            · exact absurd h.symm hned
        · simp only [hok, Bool.false_eq_true, if_false]
          obtain ⟨ih1, ih2, ih3, ih4⟩ := modeCPass_c5inv x d rest
            (execFailure oph st)
            (fun o ho => hdep o (List.mem_cons_of_mem _ ho))
            (fun o ho => hfl o (List.mem_cons_of_mem _ ho))
            (by simpa [execFailure] using hde)
          refine ⟨ih1, ?_, ?_, ?_⟩
          · intro hx
            have := ih2 hx
            simp only [execFailure, List.mem_append, List.mem_singleton]
              at this
            rcases this with h | h
            · exact h
            · exact absurd h.symm hnex
          · intro hx
            have := ih3 hx
            simp only [execFailure, List.mem_cons] at this
            rcases this with h | h
            · exact absurd h.symm hnex
            · exact h
          · intro hjd hd2
            refine ih4 ?_ hd2
            intro hd3
            simp only [execFailure, List.mem_append, List.mem_singleton]
              at hd3
            simp only [execFailure, List.mem_cons]
            rcases hd3 with h | h
            · exact Or.inr (hjd h)
            · exact Or.inl h
      · rw [if_neg hce]
        exact modeCPass_c5inv x d rest st
          (fun o ho => hdep o (List.mem_cons_of_mem _ ho))
          (fun o ho => hfl o (List.mem_cons_of_mem _ ho)) hde

/-- Loop-level dependency-skipping: under the pass invariant, if the
loop's result ever mentions `x` (invoked or failed), then `d` was never
invoked. -/
theorem modeCLoop_c5inv (x d : Nat) :
    ∀ (fuel : Nat) (l : List RollbackOperation) (st : ExecSt),
      (∀ op ∈ l, op.id = x → d ∈ op.dependsOn) →
      (∀ op ∈ l, op.id = d → op.actionOk = false) →
      d ∉ st.executed → x ∉ st.trace → x ∉ st.failed →
      (d ∈ st.trace → d ∈ st.failed) →
      (x ∈ (modeCLoop fuel l st).trace ∨ x ∈ (modeCLoop fuel l st).failed) →
      d ∉ (modeCLoop fuel l st).trace
  | 0, l, st, _, _, _, hxt, hxf, _, hx => by
    simp only [modeCLoop] at hx ⊢
    rcases hx with hx | hx
    · exact absurd hx hxt
    · exact absurd hx hxf
  | fuel + 1, l, st, hdep, hfl, hde, hxt, hxf, hjd, hx => by
    simp only [modeCLoop] at hx ⊢
    by_cases hemp : l.isEmpty
    · rw [if_pos hemp] at hx ⊢
      rcases hx with hx | hx
      · exact absurd hx hxt
      · exact absurd hx hxf
    · rw [if_neg hemp] at hx ⊢
      by_cases hnp : (modeCPass l st).2.2 = false ∧ (modeCPass l st).1 ≠ []
      · rw [if_pos hnp] at hx ⊢
        have hst : (modeCPass l st).2.1 = st := modeCPass_noprog l st hnp.1
        rw [hst] at hx ⊢
        obtain ⟨hmt, _, hmf, _⟩ := markDep_fields (modeCPass l st).1 st
        rw [hmt] at hx ⊢
        rw [hmf] at hx
        have hdnf : d ∉ st.failed := by
          intro hdf
          rcases hx with hx | hx
          · exact hxt hx
          · rcases List.mem_append.mp hx with hx | hx
            · rcases List.mem_reverse.mp hx with hx2
              rcases List.mem_map.mp hx2 with ⟨op, hop, hid⟩
              exact modeCPass_skipdrop x d l st hdf hdep op hop hid
            · exact hxf hx
        intro hdt
        exact hdnf (hjd hdt)
      · rw [if_neg hnp] at hx ⊢
        obtain ⟨ih1, ih2, ih3, ih4⟩ := modeCPass_c5inv x d l st hdep hfl hde
        exact modeCLoop_c5inv x d fuel (modeCPass l st).1 (modeCPass l st).2.1
          (fun o ho => hdep o (modeCPass_subset l st o ho))
          (fun o ho => hfl o (modeCPass_subset l st o ho))
          ih1 (fun h => hxt (ih2 h)) (fun h => hxf (ih3 h)) (ih4 hjd) hx

/-- One pass preserves "executed and failed ids were invoked" and
"every invoked operation's dependencies appear earlier in the trace". -/
theorem modeCPass_before (OPS : List RollbackOperation)
    (hinj : ∀ a, a ∈ OPS → ∀ b, b ∈ OPS → a.id = b.id → a = b) :
    ∀ (l : List RollbackOperation) (st : ExecSt),
      (∀ op ∈ l, op ∈ OPS) →
      (∀ i, i ∈ st.executed ∨ i ∈ st.failed → i ∈ st.trace) →
      (∀ op ∈ OPS, op.id ∈ st.trace →
        ∀ dep ∈ op.dependsOn, IdBefore dep op.id st.trace) →
      (∀ i, i ∈ (modeCPass l st).2.1.executed ∨
          i ∈ (modeCPass l st).2.1.failed →
        i ∈ (modeCPass l st).2.1.trace) ∧
      (∀ op ∈ OPS, op.id ∈ (modeCPass l st).2.1.trace →
        ∀ dep ∈ op.dependsOn, IdBefore dep op.id (modeCPass l st).2.1.trace)
  | [], st, _, hsub, hq => ⟨hsub, hq⟩
  | oph :: rest, st, hOPS, hsub, hq => by
    simp only [modeCPass]
    by_cases hs : shouldSkipOperation oph st.failed
    · rw [if_pos hs]
      exact modeCPass_before OPS hinj rest st
        (fun o ho => hOPS o (List.mem_cons_of_mem _ ho)) hsub hq
    · rw [if_neg hs]
      by_cases hce : canExecute oph st
      · rw [if_pos hce]
        have hophOPS : oph ∈ OPS := hOPS oph (List.mem_cons_self _ _)
        have hstep : ∀ st1 : ExecSt,
            st1.trace = st.trace ++ [oph.id] →
            (st1.executed = oph.id :: st.executed ∧ st1.failed = st.failed ∨
             st1.executed = st.executed ∧ st1.failed = oph.id :: st.failed) →
            (∀ i, i ∈ st1.executed ∨ i ∈ st1.failed → i ∈ st1.trace) ∧
            (∀ op ∈ OPS, op.id ∈ st1.trace →
              ∀ dep ∈ op.dependsOn, IdBefore dep op.id st1.trace) := by
          intro st1 htr hef
          constructor
          · intro i hi
            rw [htr]
            have : i = oph.id ∨ (i ∈ st.executed ∨ i ∈ st.failed) := by
              rcases hef with ⟨he, hf⟩ | ⟨he, hf⟩ <;> rw [he, hf] at hi <;>
                simp only [List.mem_cons] at hi <;> tauto
            rcases this with rfl | hi2
            · simp
            · exact List.mem_append_left _ (hsub i hi2)
          · intro op hop hopt dep hdep
            rw [htr] at hopt ⊢
            rcases List.mem_append.mp hopt with hmem | hmem
            · exact IdBefore_append _ (hq op hop hmem dep hdep)
            · rcases List.mem_singleton.mp hmem with hid
              have hopeq : op = oph := hinj op hop oph hophOPS hid
              have hdat : dep ∈ st.executed ∨ dep ∈ st.failed :=
                canExecute_iff.mp hce dep (by rw [← hopeq]; exact hdep)
              exact ⟨st.trace, [], by rw [hid], hsub dep hdat⟩
        by_cases hok : oph.actionOk
        · simp only [hok, if_true]
          obtain ⟨hsub1, hq1⟩ := hstep (execSuccess oph st)
            (by simp [execSuccess]) (Or.inl ⟨rfl, rfl⟩)
          exact modeCPass_before OPS hinj rest (execSuccess oph st)
            (fun o ho => hOPS o (List.mem_cons_of_mem _ ho)) hsub1 hq1
        · simp only [hok, Bool.false_eq_true, if_false]
          obtain ⟨hsub1, hq1⟩ := hstep (execFailure oph st)
            (by simp [execFailure]) (Or.inr ⟨rfl, rfl⟩)
          exact modeCPass_before OPS hinj rest (execFailure oph st)
            (fun o ho => hOPS o (List.mem_cons_of_mem _ ho)) hsub1 hq1
      · rw [if_neg hce]
        exact modeCPass_before OPS hinj rest st
          (fun o ho => hOPS o (List.mem_cons_of_mem _ ho)) hsub hq

/-- Loop level: in the dependency-aware mode every invoked operation's
dependencies appear earlier in the trace. -/
theorem modeCLoop_before (OPS : List RollbackOperation)
    (hinj : ∀ a, a ∈ OPS → ∀ b, b ∈ OPS → a.id = b.id → a = b) :
    ∀ (fuel : Nat) (l : List RollbackOperation) (st : ExecSt),
      (∀ op ∈ l, op ∈ OPS) →
      (∀ i, i ∈ st.executed ∨ i ∈ st.failed → i ∈ st.trace) →
      (∀ op ∈ OPS, op.id ∈ st.trace →
        ∀ dep ∈ op.dependsOn, IdBefore dep op.id st.trace) →
      ∀ op ∈ OPS, op.id ∈ (modeCLoop fuel l st).trace →
        ∀ dep ∈ op.dependsOn, IdBefore dep op.id (modeCLoop fuel l st).trace
  | 0, _, _, _, _, hq => hq
  | fuel + 1, l, st, hOPS, hsub, hq => by
    simp only [modeCLoop]
    by_cases hemp : l.isEmpty
    · rw [if_pos hemp]
      exact hq
    · rw [if_neg hemp]
      obtain ⟨hsub1, hq1⟩ := modeCPass_before OPS hinj l st hOPS hsub hq
      by_cases hnp : (modeCPass l st).2.2 = false ∧ (modeCPass l st).1 ≠ []
      · rw [if_pos hnp]
        obtain ⟨hmt, _, _, _⟩ :=
          markDep_fields (modeCPass l st).1 (modeCPass l st).2.1
        rw [hmt]
        exact hq1
      · rw [if_neg hnp]
        exact modeCLoop_before OPS hinj fuel (modeCPass l st).1
          (modeCPass l st).2.1
          (fun o ho => hOPS o (modeCPass_subset l st o ho)) hsub1 hq1

/-- Flipping the critical flag leaves the action outcome unchanged. -/
theorem flip_actionOk (op : RollbackOperation) :
    (flipCritical op).actionOk = op.actionOk := rfl

/-- Flipping the critical flag leaves the success update unchanged. -/
theorem execSuccess_flip (op : RollbackOperation) (st : ExecSt) :
    execSuccess (flipCritical op) st = execSuccess op st := rfl

/-- Flipping the critical flag leaves the failure update unchanged. -/
theorem execFailure_flip (op : RollbackOperation) (st : ExecSt) :
    execFailure (flipCritical op) st = execFailure op st := rfl

/-- The dependency-aware pass never reads the critical flag. -/
theorem modeCPass_flip :
    ∀ (l : List RollbackOperation) (st : ExecSt),
      modeCPass (l.map flipCritical) st =
        ((modeCPass l st).1.map flipCritical, (modeCPass l st).2.1,
          (modeCPass l st).2.2)
  | [], st => rfl
  | oph :: rest, st => by
    simp only [List.map_cons, modeCPass]
    by_cases hs : shouldSkipOperation oph st.failed
    · rw [if_pos (show shouldSkipOperation (flipCritical oph) st.failed = true
        from hs), if_pos hs]
      exact modeCPass_flip rest st
    · rw [if_neg (show ¬ shouldSkipOperation (flipCritical oph) st.failed
          = true from hs), if_neg hs]
      by_cases hce : canExecute oph st
      · rw [if_pos (show canExecute (flipCritical oph) st = true from hce),
          if_pos hce]
        by_cases hok : oph.actionOk
        · simp only [flip_actionOk, execSuccess_flip, execFailure_flip,
            hok, if_true]
          rw [modeCPass_flip rest (execSuccess oph st)]
        · simp only [flip_actionOk, execSuccess_flip, execFailure_flip,
            hok, Bool.false_eq_true, if_false]
          rw [modeCPass_flip rest (execFailure oph st)]
      · rw [if_neg (show ¬ canExecute (flipCritical oph) st = true from hce),
          if_neg hce]
        rw [modeCPass_flip rest st]
        rfl

/-- The no-progress marking never reads the critical flag. -/
theorem markDep_flip :
    ∀ (l : List RollbackOperation) (st : ExecSt),
      markDepConstraint (l.map flipCritical) st = markDepConstraint l st
  | [], _ => rfl
  | oph :: rest, st => by
    simp only [List.map_cons, markDepConstraint]
    exact markDep_flip rest _

/-- The dependency-aware loop never reads the critical flag. -/
theorem modeCLoop_flip :
    ∀ (fuel : Nat) (l : List RollbackOperation) (st : ExecSt),
      modeCLoop fuel (l.map flipCritical) st = modeCLoop fuel l st
  | 0, _, _ => rfl
  | fuel + 1, l, st => by
    simp only [modeCLoop]
    have hie : (l.map flipCritical).isEmpty = l.isEmpty := by
      cases l <;> rfl
    rw [hie, modeCPass_flip]
    by_cases hemp : l.isEmpty
    · rw [if_pos hemp, if_pos hemp]
    · rw [if_neg hemp, if_neg hemp]
      have hne : ((modeCPass l st).1.map flipCritical = []) ↔
          ((modeCPass l st).1 = []) := by
        simp
      by_cases hnp : (modeCPass l st).2.2 = false ∧ (modeCPass l st).1 ≠ []
      · rw [if_pos ⟨hnp.1, fun h => hnp.2 (hne.mp h)⟩, if_pos hnp]
        exact markDep_flip _ _
      · rw [if_neg (fun h => hnp ⟨h.1, fun h2 => h.2 (by rw [h2]; rfl)⟩),
          if_neg hnp]
        exact modeCLoop_flip fuel _ _

/-- Phase 2 distributes over list append. -/
theorem phase2_append :
    ∀ (a b : List RollbackOperation) (st : ExecSt),
      phase2 (a ++ b) st = phase2 b (phase2 a st)
  | [], _, _ => rfl
  | op :: rest, b, st => by
    simp only [List.cons_append, phase2]
    by_cases hc : op.critical
    · rw [if_pos hc, if_pos hc]
      exact phase2_append rest b st
    · rw [if_neg hc, if_neg hc]
      by_cases he2 : st.executed.contains op.id
      · rw [if_pos he2, if_pos he2]
        exact phase2_append rest b st
      · rw [if_neg he2, if_neg he2]
        by_cases hs : shouldSkipOperation op st.failed
        · rw [if_pos hs, if_pos hs]
          exact phase2_append rest b st
        · rw [if_neg hs, if_neg hs]
          by_cases hok : op.actionOk
          · rw [if_pos hok, if_pos hok]
            exact phase2_append rest b (execSuccess op st)
          · rw [if_neg hok, if_neg hok]
            exact phase2_append rest b (execFailure op st)

/-- Under default settings a phase-1-invoked operation whose action
fails is marked failed. -/
theorem phase1_fail_failed :
    ∀ (l : List RollbackOperation) (st st' : ExecSt),
      phase1 false l st = .ok st' →
      ∀ i, (∀ op ∈ l, op.id = i → op.actionOk = false) →
        (i ∈ st.trace → i ∈ st.failed) →
        i ∈ st'.trace → i ∈ st'.failed
  | [], st, st', heq, i, _, hbase, hmem => by
    simp only [phase1, P1Res.ok.injEq] at heq
    exact heq ▸ hbase (heq ▸ hmem)
  | oph :: rest, st, st', heq, i, hfails, hbase, hmem => by
    simp only [phase1] at heq
    by_cases hc : oph.critical = false
    · rw [if_pos hc] at heq
      exact phase1_fail_failed rest st st' heq i
        (fun o ho => hfails o (List.mem_cons_of_mem _ ho)) hbase hmem
    · rw [if_neg hc] at heq
      by_cases hs : shouldSkipOperation oph st.failed
      · rw [if_pos hs] at heq
        exact phase1_fail_failed rest st st' heq i
          (fun o ho => hfails o (List.mem_cons_of_mem _ ho)) hbase hmem
      · rw [if_neg hs] at heq
        by_cases hok : oph.actionOk
        · rw [if_pos hok] at heq
          have hne : oph.id ≠ i := fun he => by
            rw [hfails oph (List.mem_cons_self _ _) he] at hok
            cases hok
          refine phase1_fail_failed rest _ st' heq i
            (fun o ho => hfails o (List.mem_cons_of_mem _ ho)) ?_ hmem
          intro hti
          simp only [execSuccess, List.mem_append, List.mem_singleton]
            at hti
          rcases hti with hti | hti
          · exact hbase hti
          · exact absurd hti.symm hne
        · rw [if_neg hok, if_neg (fun h => Bool.false_ne_true h)] at heq
          refine phase1_fail_failed rest _ st' heq i
            (fun o ho => hfails o (List.mem_cons_of_mem _ ho)) ?_ hmem
          intro hti
          simp only [execFailure, List.mem_append, List.mem_singleton]
            at hti
          simp only [execFailure, List.mem_cons]
          rcases hti with hti | hti
          · exact Or.inr (hbase hti)
          · exact Or.inl hti

/-- A phase-2-invoked operation whose action fails is marked failed. -/
theorem phase2_fail_failed :
    ∀ (l : List RollbackOperation) (st : ExecSt),
      ∀ i, (∀ op ∈ l, op.id = i → op.actionOk = false) →
        (i ∈ st.trace → i ∈ st.failed) →
        i ∈ (phase2 l st).trace → i ∈ (phase2 l st).failed
  | [], st, i, _, hbase, hmem => by
    simpa [phase2] using hbase (by simpa [phase2] using hmem)
  | oph :: rest, st, i, hfails, hbase, hmem => by
    simp only [phase2] at hmem ⊢
    by_cases hc : oph.critical
    · rw [if_pos hc] at hmem ⊢
      exact phase2_fail_failed rest st i
        (fun o ho => hfails o (List.mem_cons_of_mem _ ho)) hbase hmem
    · rw [if_neg hc] at hmem ⊢
      by_cases he2 : st.executed.contains oph.id
      · rw [if_pos he2] at hmem ⊢
        exact phase2_fail_failed rest st i
          (fun o ho => hfails o (List.mem_cons_of_mem _ ho)) hbase hmem
      · rw [if_neg he2] at hmem ⊢
        by_cases hs : shouldSkipOperation oph st.failed
        · rw [if_pos hs] at hmem ⊢
          exact phase2_fail_failed rest st i
            (fun o ho => hfails o (List.mem_cons_of_mem _ ho)) hbase hmem
        · rw [if_neg hs] at hmem ⊢
          by_cases hok : oph.actionOk
          · rw [if_pos hok] at hmem ⊢
            have hne : oph.id ≠ i := fun he => by
              rw [hfails oph (List.mem_cons_self _ _) he] at hok
              cases hok
            refine phase2_fail_failed rest _ i
              (fun o ho => hfails o (List.mem_cons_of_mem _ ho)) ?_ hmem
            intro hti
            simp only [execSuccess, List.mem_append, List.mem_singleton]
              at hti
            rcases hti with hti | hti
            · exact hbase hti
            · exact absurd hti.symm hne
          · rw [if_neg hok] at hmem ⊢
            refine phase2_fail_failed rest _ i
              (fun o ho => hfails o (List.mem_cons_of_mem _ ho)) ?_ hmem
            intro hti
            simp only [execFailure, List.mem_append, List.mem_singleton]
              at hti
            simp only [execFailure, List.mem_cons]
            rcases hti with hti | hti
            · exact Or.inr (hbase hti)
            · exact Or.inl hti

/-- Claim C3, amended (corrected): in mode C (`failFast=false`)
`Execute` ignores the critical flag and runs fix-point passes; an
operation is invoked only after each of its dependencies was invoked
(strictly earlier in the trace); an operation one of whose dependencies
action-failed is silently dropped — never executed and not itself
marked failed; and a pass making no progress while operations remain
marks every remaining operation failed with the dependency-constraint
error, adds nothing to the trace, and ends the loop. -/
theorem c3_mode_c_fixpoint (rm : RollbackManager)
    (hff : rm.failFast = false)
    (hnodup : (rm.operations.map (fun op => op.id)).Nodup) :
    Execute { rm with operations := rm.operations.map flipCritical } =
      Execute rm ∧
    (∀ op ∈ rm.operations, op.id ∈ (Execute rm).st.trace →
      ∀ dep ∈ op.dependsOn, IdBefore dep op.id (Execute rm).st.trace) ∧
    (∀ opx opd, opx ∈ rm.operations → opd ∈ rm.operations →
      opd.id ∈ opx.dependsOn → opd.actionOk = false →
      opd.id ∈ (Execute rm).st.trace →
      opx.id ∉ (Execute rm).st.trace ∧ opx.id ∉ (Execute rm).st.failed) ∧
    (∀ (fuel : Nat) (remaining : List RollbackOperation) (st : ExecSt),
      remaining.isEmpty = false →
      (modeCPass remaining st).2.2 = false →
      (modeCPass remaining st).1 ≠ [] →
      modeCLoop (fuel + 1) remaining st =
        markDepConstraint (modeCPass remaining st).1 st ∧
      (∀ op ∈ (modeCPass remaining st).1,
        op.id ∈ (modeCLoop (fuel + 1) remaining st).failed ∧
        ExecErr.depConstraint op.id ∈
          (modeCLoop (fuel + 1) remaining st).errors) ∧
      (modeCLoop (fuel + 1) remaining st).trace = st.trace) := by
  have hinj : ∀ a, a ∈ rm.operations → ∀ b, b ∈ rm.operations →
      a.id = b.id → a = b :=
    fun a ha b hb => List.inj_on_of_nodup_map hnodup ha hb
  have hmarkstep : ∀ (fuel : Nat) (remaining : List RollbackOperation)
      (st : ExecSt),
      remaining.isEmpty = false →
      (modeCPass remaining st).2.2 = false →
      (modeCPass remaining st).1 ≠ [] →
      modeCLoop (fuel + 1) remaining st =
        markDepConstraint (modeCPass remaining st).1 st ∧
      (∀ op ∈ (modeCPass remaining st).1,
        op.id ∈ (modeCLoop (fuel + 1) remaining st).failed ∧
        ExecErr.depConstraint op.id ∈
          (modeCLoop (fuel + 1) remaining st).errors) ∧
      (modeCLoop (fuel + 1) remaining st).trace = st.trace := by
    intro fuel remaining st hre hpf hpn
    have hst : (modeCPass remaining st).2.1 = st :=
      modeCPass_noprog remaining st hpf
    have hloop : modeCLoop (fuel + 1) remaining st =
        markDepConstraint (modeCPass remaining st).1 st := by
      simp only [modeCLoop, hre, Bool.false_eq_true, if_false]
      rw [if_pos ⟨hpf, hpn⟩, hst]
    obtain ⟨hmt, _, hmf, hme⟩ :=
      markDep_fields (modeCPass remaining st).1 st
    refine ⟨hloop, ?_, by rw [hloop, hmt]⟩
    intro op hop
    constructor
    · rw [hloop, hmf]
      refine List.mem_append_left _ (List.mem_reverse.mpr ?_)
      exact List.mem_map_of_mem _ hop
    · rw [hloop, hme]
      exact List.mem_append_right _ (List.mem_map_of_mem _ hop)
  by_cases hemp : rm.operations.isEmpty
  · have hops : rm.operations = [] := List.isEmpty_iff.mp hemp
    have hflip : { rm with operations := rm.operations.map flipCritical }
        = rm := by
      obtain ⟨ops, deps, ff, es, le⟩ := rm
      simp only [RollbackManager.mk.injEq, and_true, true_and]
      simp only at hops
      rw [hops]
      simp
    have hxe : Execute rm =
        { result := none, final := rm, st := initSt rm } := by
      simp [Execute, hemp]
    refine ⟨by rw [hflip], ?_, ?_, hmarkstep⟩
    · intro op hop
      rw [hops] at hop
      cases hop
    · intro opx opd hx hd
      rw [hops] at hx
      cases hx
  · have hexec : Execute rm = finishExec rm
        (modeCLoop (rm.operations.length + 2) rm.operations (initSt rm))
        := by
      simp only [Execute, hemp, Bool.false_eq_true, if_false, hff]
    have hflip : Execute
        { rm with operations := rm.operations.map flipCritical } =
        Execute rm := by
      have hie : (rm.operations.map flipCritical).isEmpty
          = rm.operations.isEmpty := by
        cases rm.operations <;> rfl
      have hexec2 : Execute
          { rm with operations := rm.operations.map flipCritical } =
          finishExec rm
          (modeCLoop (rm.operations.length + 2) rm.operations (initSt rm))
          := by
        simp only [Execute, hie, hemp, Bool.false_eq_true, if_false, hff,
          List.length_map, modeCLoop_flip]
        simp [finishExec, initSt, hff]
      rw [hexec2, hexec]
    have hsub0 : ∀ i, i ∈ (initSt rm).executed ∨ i ∈ (initSt rm).failed →
        i ∈ (initSt rm).trace := by
      intro i hi
      rcases hi with hi | hi <;> simp [initSt] at hi
    refine ⟨hflip, ?_, ?_, hmarkstep⟩
    · rw [hexec]
      exact modeCLoop_before rm.operations hinj _ rm.operations (initSt rm)
        (fun o ho => ho) hsub0
        (fun op hop hmem => by simp [initSt] at hmem)
    · intro opx opd hx hd hdep hdfail hdinv
      rw [hexec] at hdinv ⊢
      have hdep2 : ∀ op ∈ rm.operations, op.id = opx.id →
          opd.id ∈ op.dependsOn := by
        intro op hop hid
        rw [hinj op hop opx hx hid]
        exact hdep
      have hfl2 : ∀ op ∈ rm.operations, op.id = opd.id →
          op.actionOk = false := by
        intro op hop hid
        rw [hinj op hop opd hd hid]
        exact hdfail
      have hmain := modeCLoop_c5inv opx.id opd.id
        (rm.operations.length + 2) rm.operations (initSt rm) hdep2 hfl2
        (by simp [initSt]) (by simp [initSt]) (by simp [initSt])
        (by intro h; simp [initSt] at h)
      constructor
      · intro hxt
        exact hmain (Or.inl hxt) hdinv
      · intro hxf
        exact hmain (Or.inr hxf) hdinv

/-- Counterexample for C3 as stated: with `SetFailFast(false)`, ledger
`[A, B]` where `A` fails and `B` depends on `A`: `B` is skipped but is
never marked failed — the failed set is `[0]` and the aggregate error
mentions only `A`, so "marked failed-by-propagation" is false. -/
theorem c3_counterexample :
    (Execute (mgrOf [cexOp 0 true false [], cexOp 1 true true [0]]
        false true)).st.failed = [0] ∧
    (1 : Nat) ∉ (Execute (mgrOf [cexOp 0 true false [],
        cexOp 1 true true [0]] false true)).st.trace ∧
    (Execute (mgrOf [cexOp 0 true false [], cexOp 1 true true [0]]
        false true)).st.errors = [ExecErr.actionFailed 0] := by decide

/-- Witness for C3: the dependent of a concrete failing operation is
neither invoked nor marked failed, and a concrete two-cycle is marked
with dependency-constraint errors by the no-progress exit. -/
theorem c3_witness :
    ((1 : Nat) ∉ (Execute (mgrOf [cexOp 0 true false [],
        cexOp 1 true true [0]] false true)).st.trace ∧
     (1 : Nat) ∉ (Execute (mgrOf [cexOp 0 true false [],
        cexOp 1 true true [0]] false true)).st.failed) ∧
    (0 : Nat) ∈ (modeCLoop 3 [cexOp 0 true true [1], cexOp 1 true true [0]]
      (initSt (mgrOf [cexOp 0 true true [1], cexOp 1 true true [0]]
        false true))).failed := by
  constructor
  · exact (c3_mode_c_fixpoint
      (mgrOf [cexOp 0 true false [], cexOp 1 true true [0]] false true)
      rfl (by decide)).2.2.1 (cexOp 1 true true [0]) (cexOp 0 true false [])
      (by decide) (by decide) (by decide) rfl (by decide)
  · exact ((c3_mode_c_fixpoint
      (mgrOf [cexOp 0 true true [1], cexOp 1 true true [0]] false true)
      rfl (by decide)).2.2.2 2
      [cexOp 0 true true [1], cexOp 1 true true [0]]
      (initSt (mgrOf [cexOp 0 true true [1], cexOp 1 true true [0]]
        false true))
      rfl (by decide) (by decide)).2.1 (cexOp 0 true true [1])
      (by decide) |>.1

/-- Composition form of `phase1_append` for a non-aborting prefix. -/
theorem phase1_append_ok (es : Bool) (a b : List RollbackOperation)
    (st st1 : ExecSt) (h : phase1 es a st = .ok st1) :
    phase1 es (a ++ b) st = phase1 es b st1 := by
  rw [phase1_append es a b st, h]

/-- Claim C5, amended (corrected): if `AddDependency(X, Y)` was recorded
and `Y`'s action fails during `Execute`, then `X` is never invoked in
mode C unconditionally, and in mode A provided `Y` is scheduled before
`X` (`Y` critical and `X` non-critical, or equal flags with `X`
appended before `Y`); when `X` is scheduled before `Y`, `X` can be
invoked even though `Y` later fails. -/
theorem c5_dependency_failure_skips_dependent (rm : RollbackManager)
    (opx opy : RollbackOperation)
    (hnodup : (rm.operations.map (fun op => op.id)).Nodup)
    (hx : opx ∈ rm.operations) (hy : opy ∈ rm.operations)
    (hdep : opy.id ∈ opx.dependsOn) (hyfail : opy.actionOk = false)
    (hyinv : opy.id ∈ (Execute rm).st.trace) :
    (rm.failFast = false → opx.id ∉ (Execute rm).st.trace) ∧
    (rm.failFast = true → rm.failFastExplicitlySet = false →
      ((opy.critical = true ∧ opx.critical = false) ∨
       (opx.critical = opy.critical ∧
        ∃ l1 l2 l3, rm.operations = l1 ++ opx :: (l2 ++ opy :: l3))) →
      opx.id ∉ (Execute rm).st.trace) := by
  have hinj : ∀ a, a ∈ rm.operations → ∀ b, b ∈ rm.operations →
      a.id = b.id → a = b :=
    fun a ha b hb => List.inj_on_of_nodup_map hnodup ha hb
  have hne : rm.operations.isEmpty = false := by
    cases hops : rm.operations
    · rw [hops] at hx; cases hx
    · rfl
  have hdep2 : ∀ op ∈ rm.operations, op.id = opx.id →
      opy.id ∈ op.dependsOn := by
    intro op hop hid
    rw [hinj op hop opx hx hid]
    exact hdep
  have hfl2 : ∀ op ∈ rm.operations, op.id = opy.id →
      op.actionOk = false := by
    intro op hop hid
    rw [hinj op hop opy hy hid]
    exact hyfail
  constructor
  · intro hff
    have hexec : Execute rm = finishExec rm
        (modeCLoop (rm.operations.length + 2) rm.operations (initSt rm))
        := by
      simp only [Execute, hne, Bool.false_eq_true, if_false, hff]
    rw [hexec] at hyinv ⊢
    intro hxt
    exact modeCLoop_c5inv opx.id opy.id (rm.operations.length + 2)
      rm.operations (initSt rm) hdep2 hfl2 (by simp [initSt])
      (by simp [initSt]) (by simp [initSt])
      (by intro h; simp [initSt] at h) (Or.inl hxt) hyinv
  · intro hff hes hcases
    obtain ⟨st1, hp⟩ := phase1_false_ok rm.operations.reverse (initSt rm)
    have hexec : Execute rm = finishExec rm
        (phase2 rm.operations.reverse st1) := by
      simp only [Execute, hne, Bool.false_eq_true, if_false, hff, if_true,
        hes, hp, Bool.not_false, Bool.true_or, if_true]
    rw [hexec] at hyinv ⊢
    simp only [finishExec] at hyinv ⊢
    have hdeprev : ∀ op ∈ rm.operations.reverse, op.id = opx.id →
        opy.id ∈ op.dependsOn :=
      fun op hop => hdep2 op (List.mem_reverse.mp hop)
    have hflrev : ∀ op ∈ rm.operations.reverse, op.id = opy.id →
        op.actionOk = false :=
      fun op hop => hfl2 op (List.mem_reverse.mp hop)
    obtain ⟨⟨t2, ht2, ht2m⟩, _, _, _⟩ :=
      phase2_shape rm.operations.reverse st1
    obtain ⟨⟨t1, ht1, ht1m⟩, _, _, _⟩ :=
      phase1_shape false rm.operations.reverse (initSt rm)
    rw [hp] at ht1
    simp only [p1state] at ht1
    rcases hcases with ⟨hcy, hcx⟩ | ⟨hceq, l1, l2, l3, hsplit⟩
    · -- Y critical, X non-critical
      have hy1 : opy.id ∈ st1.trace := by
        rw [ht2] at hyinv
        rcases List.mem_append.mp hyinv with h | h
        · exact h
        · rcases ht2m _ h with ⟨op', hop', hid, hcf⟩
          rw [hinj op' (List.mem_reverse.mp hop') opy hy hid] at hcf
          rw [hcy] at hcf
          cases hcf
      have hyfailed : opy.id ∈ st1.failed :=
        phase1_fail_failed rm.operations.reverse (initSt rm) st1 hp opy.id
          hflrev (by intro h; simp [initSt] at h) hy1
      have hx1 : opx.id ∉ st1.trace := by
        intro hmem
        rw [ht1] at hmem
        simp only [initSt, List.nil_append] at hmem
        rcases ht1m _ hmem with ⟨op', hop', hid, hct⟩
        rw [hinj op' (List.mem_reverse.mp hop') opx hx hid] at hct
        rw [hcx] at hct
        cases hct
      intro hxt
      exact hx1 (phase2_skip opx.id opy.id rm.operations.reverse st1
        hyfailed hdeprev hxt)
    · -- equal flags, X appended before Y
      have hrev : rm.operations.reverse =
          (l3.reverse ++ [opy]) ++ (l2.reverse ++ opx :: l1.reverse) := by
        rw [hsplit]
        simp
      -- id disjointness facts from the split
      have hnodup2 := hnodup
      rw [hsplit] at hnodup2
      simp only [List.map_append, List.map_cons] at hnodup2
      have hnd1 := List.nodup_append.mp hnodup2
      have hdisj1 := hnd1.2.2
      have hnd2 := List.nodup_cons.mp hnd1.2.1
      have hxne : opx.id ∉ l2.map (fun op => op.id) ∧
          opx.id ≠ opy.id ∧ opx.id ∉ l3.map (fun op => op.id) := by
        have := hnd2.1
        simp only [List.mem_append, List.mem_cons, not_or] at this
        exact ⟨this.1, this.2.1, this.2.2⟩
      have hnd3 := List.nodup_append.mp hnd2.2
      have hyne3 : opy.id ∉ l3.map (fun op => op.id) :=
        (List.nodup_cons.mp hnd3.2.1).1
      have hyne2 : opy.id ∉ l2.map (fun op => op.id) := by
        intro hmem
        exact (hnd3.2.2 hmem) (List.mem_cons_self _ _)
      have hxne1 : opx.id ∉ l1.map (fun op => op.id) := by
        intro hmem
        exact (hdisj1 hmem) (List.mem_cons_self _ _)
      have hyne1 : opy.id ∉ l1.map (fun op => op.id) := by
        intro hmem
        refine (hdisj1 hmem) ?_
        simp
      -- members of the two halves of the schedule
      have hAops : ∀ op ∈ l3.reverse ++ [opy], op ∈ rm.operations := by
        intro op hop
        rw [hsplit]
        rcases List.mem_append.mp hop with h | h
        · refine List.mem_append_right _ (List.mem_cons_of_mem _ ?_)
          exact List.mem_append_right _
            (List.mem_cons_of_mem _ (List.mem_reverse.mp h))
        · rcases List.mem_singleton.mp h with rfl
          refine List.mem_append_right _ (List.mem_cons_of_mem _ ?_)
          exact List.mem_append_right _ (List.mem_cons_self _ _)
      have hBops : ∀ op ∈ l2.reverse ++ opx :: l1.reverse,
          op ∈ rm.operations := by
        intro op hop
        rw [hsplit]
        rcases List.mem_append.mp hop with h | h
        · refine List.mem_append_right _ (List.mem_cons_of_mem _ ?_)
          exact List.mem_append_left _ (List.mem_reverse.mp h)
        · rcases List.mem_cons.mp h with rfl | h
          · exact List.mem_append_right _ (List.mem_cons_self _ _)
          · exact List.mem_append_left _ (List.mem_reverse.mp h)
      have hfB : ∀ op ∈ l2.reverse ++ opx :: l1.reverse,
          op.id ≠ opy.id := by
        intro op hop hid
        have hopy : op = opy := hinj op (hBops op hop) opy hy hid
        subst hopy
        rcases List.mem_append.mp hop with h | h
        · exact hyne2 (List.mem_map_of_mem _ (List.mem_reverse.mp h))
        · rcases List.mem_cons.mp h with h | h
          · exact hxne.2.1 (congrArg (fun op => op.id) h).symm
          · exact hyne1 (List.mem_map_of_mem _ (List.mem_reverse.mp h))
      have hfA : ∀ op ∈ l3.reverse ++ [opy], op.id ≠ opx.id := by
        intro op hop hid
        have hopx : op = opx := hinj op (hAops op hop) opx hx hid
        subst hopx
        rcases List.mem_append.mp hop with h | h
        · exact hxne.2.2 (List.mem_map_of_mem _ (List.mem_reverse.mp h))
        · rcases List.mem_singleton.mp h with h
          exact hxne.2.1 (congrArg (fun op => op.id) h)
      have hdepB : ∀ op ∈ l2.reverse ++ opx :: l1.reverse,
          op.id = opx.id → opy.id ∈ op.dependsOn :=
        fun op hop => hdep2 op (hBops op hop)
      have hflA : ∀ op ∈ l3.reverse ++ [opy], op.id = opy.id →
          op.actionOk = false :=
        fun op hop => hfl2 op (hAops op hop)
      cases hcy : opy.critical
      · -- both non-critical
        have hcxf : opx.critical = false := by rw [hceq, hcy]
        have hxnot1 : opx.id ∉ st1.trace := by
          intro hmem
          rw [ht1] at hmem
          simp only [initSt, List.nil_append] at hmem
          rcases ht1m _ hmem with ⟨op', hop', hid, hct⟩
          rw [hinj op' (List.mem_reverse.mp hop') opx hx hid] at hct
          rw [hcxf] at hct
          cases hct
        have hynot1 : opy.id ∉ st1.trace := by
          intro hmem
          rw [ht1] at hmem
          simp only [initSt, List.nil_append] at hmem
          rcases ht1m _ hmem with ⟨op', hop', hid, hct⟩
          rw [hinj op' (List.mem_reverse.mp hop') opy hy hid] at hct
          rw [hcy] at hct
          cases hct
        have hsplit2 : phase2 rm.operations.reverse st1 =
            phase2 (l2.reverse ++ opx :: l1.reverse)
              (phase2 (l3.reverse ++ [opy]) st1) := by
          rw [hrev, phase2_append]
        obtain ⟨⟨tA, htA, htAm⟩, _, _, _⟩ :=
          phase2_shape (l3.reverse ++ [opy]) st1
        obtain ⟨⟨tB, htB, htBm⟩, _, _, _⟩ :=
          phase2_shape (l2.reverse ++ opx :: l1.reverse)
            (phase2 (l3.reverse ++ [opy]) st1)
        have hyA2 : opy.id ∈ (phase2 (l3.reverse ++ [opy]) st1).trace := by
          rw [hsplit2] at hyinv
          rw [htB] at hyinv
          rcases List.mem_append.mp hyinv with h | h
          · exact h
          · rcases htBm _ h with ⟨op', hop', hid, _⟩
            exact absurd hid (hfB op' hop')
        have hyA2f : opy.id ∈ (phase2 (l3.reverse ++ [opy]) st1).failed :=
          phase2_fail_failed (l3.reverse ++ [opy]) st1 opy.id hflA
            (fun h => absurd h hynot1) hyA2
        have hxA2 : opx.id ∉ (phase2 (l3.reverse ++ [opy]) st1).trace := by
          intro hmem
          rw [htA] at hmem
          rcases List.mem_append.mp hmem with h | h
          · exact hxnot1 h
          · rcases htAm _ h with ⟨op', hop', hid, _⟩
            exact absurd hid (hfA op' hop')
        intro hxt
        rw [hsplit2] at hxt
        exact hxA2 (phase2_skip opx.id opy.id
          (l2.reverse ++ opx :: l1.reverse)
          (phase2 (l3.reverse ++ [opy]) st1) hyA2f hdepB hxt)
      · -- both critical
        have hcxt : opx.critical = true := by rw [hceq, hcy]
        obtain ⟨stA, hpA⟩ := phase1_false_ok (l3.reverse ++ [opy])
          (initSt rm)
        have hp2 : phase1 false (l2.reverse ++ opx :: l1.reverse) stA =
            .ok st1 := by
          rw [hrev] at hp
          rw [phase1_append_ok false _ _ _ _ hpA] at hp
          exact hp
        have hy1 : opy.id ∈ st1.trace := by
          rw [ht2] at hyinv
          rcases List.mem_append.mp hyinv with h | h
          · exact h
          · rcases ht2m _ h with ⟨op', hop', hid, hcf⟩
            rw [hinj op' (List.mem_reverse.mp hop') opy hy hid] at hcf
            rw [hcy] at hcf
            cases hcf
        obtain ⟨⟨tB, htB, htBm⟩, _, _, _⟩ :=
          phase1_shape false (l2.reverse ++ opx :: l1.reverse) stA
        rw [hp2] at htB
        simp only [p1state] at htB
        obtain ⟨⟨tA, htA, htAm⟩, _, _, _⟩ :=
          phase1_shape false (l3.reverse ++ [opy]) (initSt rm)
        rw [hpA] at htA
        simp only [p1state] at htA
        have hyA : opy.id ∈ stA.trace := by
          rw [htB] at hy1
          rcases List.mem_append.mp hy1 with h | h
          · exact h
          · rcases htBm _ h with ⟨op', hop', hid, _⟩
            exact absurd hid (hfB op' hop')
        have hyAf : opy.id ∈ stA.failed :=
          phase1_fail_failed (l3.reverse ++ [opy]) (initSt rm) stA hpA
            opy.id hflA (by intro h; simp [initSt] at h) hyA
        have hxA : opx.id ∉ stA.trace := by
          intro hmem
          rw [htA] at hmem
          simp only [initSt, List.nil_append] at hmem
          rcases htAm _ hmem with ⟨op', hop', hid, _⟩
          exact absurd hid (hfA op' hop')
        have hxnot1 : opx.id ∉ st1.trace := by
          intro hmem
          have := phase1_skip false opx.id opy.id
            (l2.reverse ++ opx :: l1.reverse) stA hyAf hdepB
            (by rw [hp2]; exact hmem)
          exact hxA this
        intro hxt
        rw [ht2] at hxt
        rcases List.mem_append.mp hxt with h | h
        · exact hxnot1 h
        · rcases ht2m _ h with ⟨op', hop', hid, hcf⟩
          rw [hinj op' (List.mem_reverse.mp hop') opx hx hid] at hcf
          rw [hcxt] at hcf
          cases hcf

/-- Counterexample for C5 as stated: `X` (id 1, critical, appended
after `Y`) depends on `Y` (id 0, critical, failing); under default
settings the reverse-order phase 1 invokes `X` before `Y` fails, so
`X`'s action is invoked even though `Y`'s action fails. -/
theorem c5_counterexample :
    (Execute (mgrOf [cexOp 0 true false [], cexOp 1 true true [0]]
        true false)).st.trace = [1, 0] ∧
    (0 : Nat) ∈ (Execute (mgrOf [cexOp 0 true false [],
        cexOp 1 true true [0]] true false)).st.trace ∧
    (1 : Nat) ∈ (Execute (mgrOf [cexOp 0 true false [],
        cexOp 1 true true [0]] true false)).st.trace := by decide

/-- Witness for C5: mode C skips the dependent of a failing operation,
and in mode A the dependent appended before the failing operation is
skipped as well. -/
theorem c5_witness :
    (0 : Nat) ∉ (Execute (mgrOf [cexOp 0 true true [1],
        cexOp 1 true false []] true false)).st.trace ∧
    (1 : Nat) ∉ (Execute (mgrOf [cexOp 0 true false [],
        cexOp 1 true true [0]] false true)).st.trace := by
  constructor
  · exact (c5_dependency_failure_skips_dependent
      (mgrOf [cexOp 0 true true [1], cexOp 1 true false []] true false)
      (cexOp 0 true true [1]) (cexOp 1 true false [])
      (by decide) (by decide) (by decide) (by decide) rfl
      (by decide)).2 rfl rfl
      (Or.inr ⟨rfl, [], [], [], rfl⟩)
  · exact (c5_dependency_failure_skips_dependent
      (mgrOf [cexOp 0 true false [], cexOp 1 true true [0]] false true)
      (cexOp 1 true true [0]) (cexOp 0 true false [])
      (by decide) (by decide) (by decide) (by decide) rfl
      (by decide)).1 rfl

/-- `execSuccess` preserves the `lastError` linkage. -/
theorem lastErrLink_execSuccess {init : Option ExecErr} {st : ExecSt}
    (h : lastErrLink init st) (op : RollbackOperation) :
    lastErrLink init (execSuccess op st) := h

/-- `execFailure` records the new error as `lastError`. -/
theorem lastErrLink_execFailure {init : Option ExecErr} {st : ExecSt}
    (_ : lastErrLink init st) (op : RollbackOperation) :
    lastErrLink init (execFailure op st) := by
  simp [lastErrLink, execFailure, List.getLast?_concat]

/-- Phase 1 preserves the `lastError` linkage on its non-abort exit. -/
theorem phase1_ok_lastErrLink {init : Option ExecErr} (es : Bool) :
    ∀ (l : List RollbackOperation) (st st' : ExecSt),
      lastErrLink init st → phase1 es l st = .ok st' → lastErrLink init st'
  | [], st, st', h, heq => by
    simp only [phase1, P1Res.ok.injEq] at heq
    exact heq ▸ h
  | op :: rest, st, st', h, heq => by
    simp only [phase1] at heq
    by_cases hc : op.critical = false
    · rw [if_pos hc] at heq
      exact phase1_ok_lastErrLink es rest st st' h heq
    · rw [if_neg hc] at heq
      by_cases hs : shouldSkipOperation op st.failed
      · rw [if_pos hs] at heq
        exact phase1_ok_lastErrLink es rest st st' h heq
      · rw [if_neg hs] at heq
        by_cases hok : op.actionOk
        · rw [if_pos hok] at heq
          exact phase1_ok_lastErrLink es rest _ st'
            (lastErrLink_execSuccess h op) heq
        · rw [if_neg hok] at heq
          by_cases hes : es
          · simp [hes] at heq
          · rw [if_neg hes] at heq
            exact phase1_ok_lastErrLink es rest _ st'
              (lastErrLink_execFailure h op) heq

/-- At a phase-1 abort, `lastError` is the failing operation's error. -/
theorem phase1_abort_lastError (es : Bool) :
    ∀ (l : List RollbackOperation) (st : ExecSt) (k : Nat) (st' : ExecSt),
      phase1 es l st = .abort k st' →
      st'.lastError = some (ExecErr.actionFailed k)
  | [], st, k, st', heq => by simp [phase1] at heq
  | op :: rest, st, k, st', heq => by
    simp only [phase1] at heq
    by_cases hc : op.critical = false
    · rw [if_pos hc] at heq
      exact phase1_abort_lastError es rest st k st' heq
    · rw [if_neg hc] at heq
      by_cases hs : shouldSkipOperation op st.failed
      · rw [if_pos hs] at heq
        exact phase1_abort_lastError es rest st k st' heq
      · rw [if_neg hs] at heq
        by_cases hok : op.actionOk
        · rw [if_pos hok] at heq
          exact phase1_abort_lastError es rest _ k st' heq
        · rw [if_neg hok] at heq
          by_cases hes : es
          · rw [if_pos hes] at heq
            cases heq
            rfl
          · rw [if_neg hes] at heq
            exact phase1_abort_lastError es rest _ k st' heq

/-- Phase 2 preserves the `lastError` linkage. -/
theorem phase2_lastErrLink {init : Option ExecErr} :
    ∀ (l : List RollbackOperation) (st : ExecSt),
      lastErrLink init st → lastErrLink init (phase2 l st)
  | [], _, h => h
  | op :: rest, st, h => by
    simp only [phase2]
    by_cases hc : op.critical
    · rw [if_pos hc]; exact phase2_lastErrLink rest st h
    · rw [if_neg hc]
      by_cases he : st.executed.contains op.id
      · rw [if_pos he]; exact phase2_lastErrLink rest st h
      · rw [if_neg he]
        by_cases hs : shouldSkipOperation op st.failed
        · rw [if_pos hs]; exact phase2_lastErrLink rest st h
        · rw [if_neg hs]
          by_cases hok : op.actionOk
          · rw [if_pos hok]
            exact phase2_lastErrLink rest _ (lastErrLink_execSuccess h op)
          · rw [if_neg hok]
            exact phase2_lastErrLink rest _ (lastErrLink_execFailure h op)

/-- One dependency-aware pass preserves the `lastError` linkage. -/
theorem modeCPass_lastErrLink {init : Option ExecErr} :
    ∀ (l : List RollbackOperation) (st : ExecSt),
      lastErrLink init st → lastErrLink init (modeCPass l st).2.1
  | [], _, h => h
  | op :: rest, st, h => by
    simp only [modeCPass]
    by_cases hs : shouldSkipOperation op st.failed
    · rw [if_pos hs]; exact modeCPass_lastErrLink rest st h
    · rw [if_neg hs]
      by_cases hce : canExecute op st
      · rw [if_pos hce]
        by_cases hok : op.actionOk
        · simpa [hok] using
            modeCPass_lastErrLink rest _ (lastErrLink_execSuccess h op)
        · simpa [hok] using
            modeCPass_lastErrLink rest _ (lastErrLink_execFailure h op)
      · rw [if_neg hce]
        exact modeCPass_lastErrLink rest st h

/-- The no-progress marking preserves the `lastError` linkage. -/
theorem markDepConstraint_lastErrLink {init : Option ExecErr} :
    ∀ (l : List RollbackOperation) (st : ExecSt),
      lastErrLink init st → lastErrLink init (markDepConstraint l st)
  | [], _, h => h
  | op :: rest, _, _ => by
    simp only [markDepConstraint]
    exact markDepConstraint_lastErrLink rest _
      (by simp [lastErrLink, List.getLast?_concat])

/-- The dependency-aware loop preserves the `lastError` linkage. -/
theorem modeCLoop_lastErrLink {init : Option ExecErr} :
    ∀ (fuel : Nat) (l : List RollbackOperation) (st : ExecSt),
      lastErrLink init st → lastErrLink init (modeCLoop fuel l st)
  | 0, _, _, h => h
  | fuel + 1, remaining, st, h => by
    simp only [modeCLoop]
    by_cases hemp : remaining.isEmpty
    · rw [if_pos hemp]; exact h
    · rw [if_neg hemp]
      have hpass : lastErrLink init (modeCPass remaining st).2.1 :=
        modeCPass_lastErrLink remaining st h
      by_cases hnp : (modeCPass remaining st).2.2 = false ∧
          (modeCPass remaining st).1 ≠ []
      · rw [if_pos hnp]
        exact markDepConstraint_lastErrLink _ _ hpass
      · rw [if_neg hnp]
        exact modeCLoop_lastErrLink fuel _ _ hpass

/-- Claim C8 (confirmed): clearing (by `Clear` or at the end of
`Execute`) resets only the operation list and dependency index;
`GetLastError` still returns the most recent error recorded during
execution afterwards. -/
theorem c8_lastError_survives_clear (rm : RollbackManager) :
    Clear rm = { rm with operations := [], dependencies := [] } ∧
    GetLastError (Clear rm) = GetLastError rm ∧
    (Execute rm).final.operations = [] ∧
    (rm.operations ≠ [] → (Execute rm).final.dependencies = []) ∧
    (Execute rm).final.failFast = rm.failFast ∧
    (Execute rm).final.failFastExplicitlySet = rm.failFastExplicitlySet ∧
    GetLastError (Execute rm).final = (Execute rm).st.lastError ∧
    ((Execute rm).result = none →
      GetLastError (Execute rm).final = rm.lastError) ∧
    (∀ errs, (Execute rm).result = some (RollbackError.aggregate errs) →
      errs ≠ [] ∧ GetLastError (Execute rm).final = errs.getLast?) ∧
    (∀ k, (Execute rm).result = some (RollbackError.criticalFailure k) →
      GetLastError (Execute rm).final = some (ExecErr.actionFailed k)) := by
  have hinit : lastErrLink rm.lastError (initSt rm) := rfl
  refine ⟨rfl, rfl, ?_⟩
  by_cases h1 : rm.operations.isEmpty
  · have hops : rm.operations = [] := List.isEmpty_iff.mp h1
    have hx : Execute rm =
        { result := none, final := rm, st := initSt rm } := by
      simp [Execute, h1]
    rw [hx]
    refine ⟨hops, fun hne => absurd hops hne, rfl, rfl, rfl,
      fun _ => rfl, ?_, ?_⟩
    · intro errs herrs
      cases herrs
    · intro k hk
      cases hk
  · by_cases h2 : rm.failFast
    · cases hp : phase1 rm.failFastExplicitlySet rm.operations.reverse
        (initSt rm) with
      | abort k st =>
        have hlast := phase1_abort_lastError _ _ _ _ _ hp
        have hx : Execute rm =
            { result := some (RollbackError.criticalFailure k),
              final := { rm with operations := [], dependencies := [],
                                 lastError := st.lastError },
              st := st } := by
          simp [Execute, h1, h2, hp]
        rw [hx]
        refine ⟨rfl, fun _ => rfl, rfl, rfl, rfl, ?_, ?_, ?_⟩
        · intro hnone
          cases hnone
        · intro errs herrs
          cases herrs
        · intro k2 hk2
          cases hk2
          exact hlast
      | ok st1 =>
        have hst1 : lastErrLink rm.lastError st1 :=
          phase1_ok_lastErrLink _ _ _ _ hinit hp
        have hst2 : lastErrLink rm.lastError
            (if !rm.failFastExplicitlySet || st1.errors.isEmpty then
              phase2 rm.operations.reverse st1 else st1) := by
          by_cases hc : !rm.failFastExplicitlySet || st1.errors.isEmpty
          · rw [if_pos hc]; exact phase2_lastErrLink _ _ hst1
          · rw [if_neg hc]; exact hst1
        have hx : Execute rm = finishExec rm
            (if !rm.failFastExplicitlySet || st1.errors.isEmpty then
              phase2 rm.operations.reverse st1 else st1) := by
          simp only [Execute, h1, h2, hp, Bool.false_eq_true, if_false,
            if_true]
        revert hst2
        generalize (if !rm.failFastExplicitlySet || st1.errors.isEmpty then
          phase2 rm.operations.reverse st1 else st1) = st2 at hx
        intro hst2
        rw [hx]
        refine ⟨rfl, fun _ => rfl, rfl, rfl, rfl, ?_, ?_, ?_⟩
        · intro hnone
          simp only [finishExec, GetLastError] at hnone ⊢
          by_cases he : st2.errors.isEmpty
          · exact hst2.trans (by simp [List.isEmpty_iff.mp he])
          · rw [if_neg he] at hnone; cases hnone
        · intro errs herrs
          simp only [finishExec, GetLastError] at herrs ⊢
          by_cases he : st2.errors.isEmpty
          · rw [if_pos he] at herrs; cases herrs
          · rw [if_neg he] at herrs
            cases herrs
            have hne : st2.errors ≠ [] := fun hnil => by
              rw [hnil] at he; exact he rfl
            refine ⟨hne, ?_⟩
            rcases Option.isSome_iff_exists.mp
              (List.getLast?_isSome.mpr hne) with ⟨e, hee⟩
            rw [hee]
            exact hst2.trans (by rw [hee])
        · intro k hk
          simp only [finishExec] at hk
          by_cases he : st2.errors.isEmpty
          · rw [if_pos he] at hk; cases hk
          · rw [if_neg he] at hk; cases hk
    · have hst : lastErrLink rm.lastError
          (modeCLoop (rm.operations.length + 2) rm.operations (initSt rm)) :=
        modeCLoop_lastErrLink _ _ _ hinit
      have hx : Execute rm = finishExec rm
          (modeCLoop (rm.operations.length + 2) rm.operations (initSt rm))
          := by
        simp only [Execute, h1, h2, Bool.false_eq_true, if_false]
      revert hst
      generalize (modeCLoop (rm.operations.length + 2) rm.operations
        (initSt rm)) = st at hx
      intro hst
      rw [hx]
      refine ⟨rfl, fun _ => rfl, rfl, rfl, rfl, ?_, ?_, ?_⟩
      · intro hnone
        simp only [finishExec, GetLastError] at hnone ⊢
        by_cases he : st.errors.isEmpty
        · exact hst.trans (by simp [List.isEmpty_iff.mp he])
        · rw [if_neg he] at hnone; cases hnone
      · intro errs herrs
        simp only [finishExec, GetLastError] at herrs ⊢
        by_cases he : st.errors.isEmpty
        · rw [if_pos he] at herrs; cases herrs
        · rw [if_neg he] at herrs
          cases herrs
          have hne : st.errors ≠ [] := fun hnil => by
            rw [hnil] at he; exact he rfl
          refine ⟨hne, ?_⟩
          rcases Option.isSome_iff_exists.mp
            (List.getLast?_isSome.mpr hne) with ⟨e, hee⟩
          rw [hee]
          exact hst.trans (by rw [hee])
      · intro k hk
        simp only [finishExec] at hk
        by_cases he : st.errors.isEmpty
        · rw [if_pos he] at hk; cases hk
        · rw [if_neg he] at hk; cases hk

/-- Witness for C8 at a concrete two-operation ledger whose critical
operation fails under default settings. -/
theorem c8_witness :
    (mgrOf [cexOp 0 true false [], cexOp 1 false true []]
        true false).operations ≠ [] ∧
    (Execute (mgrOf [cexOp 0 true false [], cexOp 1 false true []]
        true false)).final.dependencies = [] ∧
    GetLastError (Execute (mgrOf [cexOp 0 true false [],
        cexOp 1 false true []] true false)).final =
      [ExecErr.actionFailed 0].getLast? := by
  have h := c8_lastError_survives_clear
    (mgrOf [cexOp 0 true false [], cexOp 1 false true []] true false)
  refine ⟨by decide, h.2.2.2.1 (by decide), ?_⟩
  exact ((h.2.2.2.2.2.2.2.2.1) [ExecErr.actionFailed 0] (by decide)).2

set_option maxRecDepth 200000 in
/-- Witness for C7: the concrete held-lock scenario from the spec
(`create` on `/repo/A`): rejection while held, success after release. -/
theorem c7_witness :
    AcquireLock lmHeld 1234 aliveAll "T" "create" "/repo/A" 5000 fsHeld =
      { result := .error .alreadyAcquiredManager, manager := lmHeld,
        fs := fsHeld, events := [] } ∧
    (∃ newLock,
      (AcquireLock (ReleaseLock lmHeld (some lHeld) fsHeld).1 1234 aliveAll
        "T2" "create" "/repo/A" 5000
        (ReleaseLock lmHeld (some lHeld) fsHeld).2.2.1).result =
          .ok newLock ∧ newLock.acquired = true) := by
  have h := c7_held_key_rejected_then_reacquirable lmHeld 1234 aliveAll
    "T" "T2" "create" "/repo/A" 5000 fsHeld lHeld (by decide) (by decide)
  exact ⟨h.1, h.2 rfl (by decide) (by decide)⟩

end WTree

